import Mathlib

/-!
Verification development for the driverPro Route Optimization Engine
(`backend/app/services/or_tools_service.py` and
`backend/app/services/clustering_service.py`).

Modelling conventions:
* A Python stop dict is a `Stop` record; dict identity (references held by the
  caller) is modelled by a heap `Heap := List Stop` addressed by `Nat`
  indices; `dict.copy()` allocates a fresh address, and item assignment
  (`stop['sequence_order'] = n`) mutates the heap in place.
* The OR-Tools search (`pywrapcp`) is external: a single search attempt is
  modelled by its observable outcome `Option (Nat × SolveResult)` (objective
  value and extracted solution), and `VRPSolver.solve`'s multi-start loop is
  translated faithfully over those outcomes.  Likewise scikit-learn's k-means
  is modelled by its observable output, a label function `Nat → Nat`, and the
  Google distance-matrix API by a function returning rows of elements that are
  either OK `(distance, duration)` pairs or an unavailable marker (`none`).
* Coordinates are exact rationals.  The haversine estimator is transcendental,
  so the functions of `clustering_service.py` that compare haversine distances
  are translated generically over the distance function `d` (with values in a
  linear ordered field); the real haversine formula itself is translated
  separately over `ℝ`.
* Calls to `VRPSolver.refine_with_google_maps` (the Route Refiner) are
  recorded in a trace: each event is the list of coordinates of the refined
  route, in order.
-/

namespace DriverPro

/-- Coordinate pair (latitude, longitude) as exact rationals. -/
abbrev Coord := ℚ × ℚ

/-- A stop dict as used by the optimization engine: the keys the engine reads
or writes.  `order_preference = none` models an absent key. -/
structure Stop where
  ident : Nat
  latitude : ℚ
  longitude : ℚ
  order_preference : Option String
  sequence_order : Option Nat
  deriving Repr, DecidableEq

instance : Inhabited Stop := ⟨⟨0, 0, 0, none, none⟩⟩

/-- The heap of stop dicts: addresses are indices into the store. -/
abbrev Heap := List Stop

/-- Read the dict at address `a` (a dangling address reads the default stop;
Python references are never dangling, so theorems carry validity hypotheses
where the distinction could matter). -/
def hget (h : Heap) (a : Nat) : Stop := h.getD a default

/-- Allocate a fresh dict (models `dict.copy()` which returns a new object). -/
def halloc (h : Heap) (s : Stop) : Heap × Nat := (h ++ [s], h.length)

/-- In-place update of the `sequence_order` item of the dict at address `a`
(models `stop['sequence_order'] = n`). -/
def hsetSeq (h : Heap) (a : Nat) (n : Nat) : Heap :=
  h.set a { hget h a with sequence_order := some n }

/-- Coordinates `(stop['latitude'], stop['longitude'])` of the dict at `a`. -/
def coordOf (h : Heap) (a : Nat) : Coord := ((hget h a).latitude, (hget h a).longitude)

/-- `Metaheuristic` enum of `or_tools_service.py`. -/
inductive Metaheuristic where
  | guided_local_search
  | tabu_search
  | simulated_annealing
  | automatic
  deriving Repr, DecidableEq

/-- `OptimizationConfig` dataclass (fields read by the translated code paths;
defaults as in the source). -/
structure OptimizationConfig where
  time_limit_seconds : Nat := 120
  num_starts : Nat := 10
  metaheuristic : Metaheuristic := .guided_local_search
  optimize_for_duration : Bool := true
  use_traffic : Bool := true
  log_search : Bool := false
  use_full_propagation : Bool := true
  service_time_seconds : Nat := 120
  enable_clustering : Bool := true
  max_stops_per_cluster : Nat := 40
  use_haversine_precompute : Bool := true
  deriving Repr, DecidableEq

/-- One element of a Distance Oracle (Google distance-matrix) row:
`some (distance_value, duration_value)` when `status == 'OK'`, else `none`. -/
abbrev OElem := Option (Nat × Nat)

/-- The Distance Oracle: origins and destinations to rows of elements
(models `get_distance_matrix`, whose traffic flag does not change the shape). -/
abbrev Oracle := List Coord → List Coord → List (List OElem)

/-- Extracted OR-Tools solution (`VRPSolver._extract_solution`):
the visiting order of location indices and the two totals. -/
structure SolveResult where
  route : List Nat
  total_distance_meters : Nat
  total_duration_seconds : Nat
  deriving Repr, DecidableEq

/-- An abstract single search attempt of the external OR-Tools solver:
`some (objectiveValue, extractedSolution)` when the attempt is feasible. -/
abbrev Attempt := Option (Nat × SolveResult)

/-- One step of `VRPSolver.solve`'s multi-start loop: keep the incumbent
unless this attempt found a solution of strictly smaller objective value
(`if cost < best_cost`), starting from `best_cost = float('inf')`. -/
def solveStep (best : Option SolveResult × WithTop Nat) (att : Attempt) :
    Option SolveResult × WithTop Nat :=
  match att with
  | none => best
  | some (cost, sol) => if WithTop.some cost < best.2 then (some sol, WithTop.some cost) else best

/-- The multi-start loop of `VRPSolver.solve` over the listed attempt
outcomes (`best_solution = None`, `best_cost = float('inf')`). -/
def solveLoop (atts : List Attempt) : Option SolveResult × WithTop Nat :=
  atts.foldl solveStep (none, ⊤)

/-- `VRPSolver.solve`: run `num_starts` attempts (the `for i in
range(self.config.num_starts)` loop) and return the retained best solution,
`None` when no attempt was feasible. -/
def VRPSolver_solve (cfg : OptimizationConfig) (atts : Nat → Attempt) : Option SolveResult :=
  (solveLoop ((List.range cfg.num_starts).map atts)).1

/-- Diagonal extraction of `refine_with_google_maps`: for row `i` take element
`i` when present and `OK`, and sum distances and durations. -/
def extractDiag : Nat → List (List OElem) → Nat × Nat
  | _, [] => (0, 0)
  | i, row :: rest =>
    let acc := extractDiag (i + 1) rest
    match (if i < row.length then row.getD i none else none) with
    | some (dd, tt) => (acc.1 + dd, acc.2 + tt)
    | none => acc

/-- `VRPSolver.refine_with_google_maps`: for a route of location indices, call
the oracle on the consecutive (origin, destination) pairs and sum the OK
elements of the diagonal.  Returns the totals together with the refiner-call
trace (one event—the refined coordinate sequence—iff the oracle was called). -/
def refineH (oracle : Oracle) (locations : List Coord) (route : List Nat) :
    (Nat × Nat) × List (List Coord) :=
  if route.length < 2 then ((0, 0), [])
  else
    let rlocs := route.map (fun i => locations.getD i (0, 0))
    let origins := rlocs.dropLast
    let dests := rlocs.drop 1
    ((extractDiag 0 (oracle origins dests)), [rlocs])

/-- Result dict of `optimize_route` / `optimize_route_with_clustering`:
`stops` holds the addresses of the returned stop dicts; `clusters_used` is
present only on the clustered path. -/
structure RouteResult where
  stops : List Nat
  total_distance_meters : Nat
  total_duration_seconds : Nat
  clusters_used : Option Nat := none
  deriving Repr, DecidableEq

/-- Bucket `[s for s in stops if s.get('order_preference') == 'first']`. -/
def bucketFirst (h : Heap) (stops : List Nat) : List Nat :=
  stops.filter (fun a => (hget h a).order_preference = some "first")

/-- Bucket `[s for s in stops if s.get('order_preference', 'auto') == 'auto']`. -/
def bucketAuto (h : Heap) (stops : List Nat) : List Nat :=
  stops.filter (fun a => (hget h a).order_preference.getD "auto" = "auto")

/-- Bucket `[s for s in stops if s.get('order_preference') == 'last']`. -/
def bucketLast (h : Heap) (stops : List Nat) : List Nat :=
  stops.filter (fun a => (hget h a).order_preference = some "last")

/-- Loop `stop_copy = stop.copy(); stop_copy['sequence_order'] = seq;
result.append(stop_copy); seq += 1` over a list of addresses.  Returns the new
heap, the fresh addresses in order, and the next sequence number. -/
def copySeq (h : Heap) (seq : Nat) : List Nat → Heap × List Nat × Nat
  | [] => (h, [], seq)
  | a :: as =>
    let al := halloc h { hget h a with sequence_order := some seq }
    let rest := copySeq al.1 (seq + 1) as
    (rest.1, al.2 :: rest.2.1, rest.2.2)

/-- Loop `stop['sequence_order'] = seq; seq += 1` over a list of addresses
(in-place mutation, as for the already-copied optimized auto stops). -/
def setSeqRun (h : Heap) (seq : Nat) : List Nat → Heap × Nat
  | [] => (h, seq)
  | a :: as => setSeqRun (hsetSeq h a seq) (seq + 1) as

/-- Result-assembly loop of `optimize_route` (lines 394-405): walk the solved
route, skip the depot indices, keep nodes that map into `auto_stops` range and
copy the corresponding stop dict (`auto_stops[stop_index].copy()`). -/
def buildAuto (autoB : List Nat) (startIdx : Nat) (e : Option Coord) (endIdx offset : Nat) :
    Heap → List Nat → Heap × List Nat
  | h, [] => (h, [])
  | h, n :: rest =>
    if n = startIdx ∨ (e.isSome ∧ n = endIdx) then
      buildAuto autoB startIdx e endIdx offset h rest
    else
      let si : Int := (n : Int) - (offset : Int)
      if 0 ≤ si ∧ si < (autoB.length : Int) then
        let al := halloc h (hget h (autoB.getD si.toNat 0))
        let res := buildAuto autoB startIdx e endIdx offset al.1 rest
        (res.1, al.2 :: res.2)
      else
        buildAuto autoB startIdx e endIdx offset h rest

/-- Location list before the optional end location (`optimize_route` lines
359-369): the start location if given, then the auto stops' coordinates. -/
def baseLocations (h : Heap) (autoB : List Nat) (s : Option Coord) : List Coord :=
  (match s with | some sp => [sp] | none => []) ++ autoB.map (coordOf h)

/-- Truthiness of `end_location and end_location != start_location`. -/
def endCondition (s e : Option Coord) : Bool :=
  match e, s with
  | some ep, some sp => decide (ep ≠ sp)
  | some _, none => true
  | none, _ => false

/-- The full location list of `optimize_route` (lines 359-373). -/
def routeLocations (h : Heap) (autoB : List Nat) (s e : Option Coord) : List Coord :=
  if endCondition s e then baseLocations h autoB s ++ [e.getD (0, 0)]
  else baseLocations h autoB s

/-- The end index passed to the solver (`end_index`, lines 371-375; the start
index is always 0). -/
def endIndex (h : Heap) (autoB : List Nat) (s e : Option Coord) : Nat :=
  if endCondition s e then (baseLocations h autoB s).length
  else (if s.isSome then 0 else 0)

/-- `optimize_route` of `or_tools_service.py`, over the heap of stop dicts.
The external OR-Tools search is the parameter `solver` (from locations and
depot indices to the retained best solution, `none` when infeasible) and the
Google distance-matrix API is the parameter `oracle`.  Returns the result
(`none` models Python `None`), the final heap, and the refiner-call trace. -/
def optimize_routeH (solver : List Coord → Nat → Nat → Option SolveResult)
    (oracle : Oracle) (cfg : OptimizationConfig)
    (stops : List Nat) (s e : Option Coord) (h : Heap) :
    Option RouteResult × Heap × List (List Coord) :=
  let firstB := bucketFirst h stops
  let autoB := bucketAuto h stops
  let lastB := bucketLast h stops
  if autoB = [] then
    -- all stops fixed: order first_stops + last_stops with positions i+1
    let fl := copySeq h 1 (firstB ++ lastB)
    (some { stops := fl.2.1, total_distance_meters := 0, total_duration_seconds := 0 }, fl.1, [])
  else
    match solver (routeLocations h autoB s e) 0 (endIndex h autoB s e) with
    | none => (none, h, [])
    | some sol =>
      let refOut :=
        if cfg.use_haversine_precompute = true ∧ 1 < sol.route.length then
          refineH oracle (routeLocations h autoB s e) sol.route
        else ((sol.total_distance_meters, sol.total_duration_seconds), [])
      let ba := buildAuto autoB 0 e (endIndex h autoB s e) (if s.isSome then 1 else 0) h sol.route
      let fc := copySeq ba.1 1 firstB
      let ms := setSeqRun fc.1 fc.2.2 ba.2
      let lc := copySeq ms.1 ms.2 lastB
      (some { stops := fc.2.1 ++ ba.2 ++ lc.2.1,
              total_distance_meters := refOut.1.1,
              total_duration_seconds := refOut.1.2 }, lc.1, refOut.2)

/-- `ClusterConfig` dataclass of `clustering_service.py` (source defaults). -/
structure ClusterConfig where
  max_stops_per_cluster : Nat := 25
  min_clusters : Nat := 2
  max_clusters : Nat := 10
  deriving Repr, DecidableEq

/-- Ceiling division, the integer value of `math.ceil(n / m)` for `m > 0`. -/
def ceilDiv (n m : Nat) : Nat := (n + m - 1) / m

/-- Cluster-count computation of `cluster_stops` (lines 101-104):
`min(max(min_clusters, ceil(n / max_stops_per_cluster)), max_clusters)`. -/
def n_clusters_of (cfg : ClusterConfig) (n : Nat) : Nat :=
  min (max cfg.min_clusters (ceilDiv n cfg.max_stops_per_cluster)) cfg.max_clusters

/-- Grouping loop `for i, stop in enumerate(stops): clusters[labels[i]].append(stop)`
restricted to one cluster index `c`, scanning from position `i`. -/
def labelFilter {α : Type} (labels : Nat → Nat) (c : Nat) : Nat → List α → List α
  | _, [] => []
  | i, x :: xs =>
    if labels i = c then x :: labelFilter labels c (i + 1) xs
    else labelFilter labels c (i + 1) xs

/-- All clusters produced by the grouping loop, one per requested label. -/
def groupByLabel {α : Type} (stops : List α) (k : Nat) (labels : Nat → Nat) : List (List α) :=
  (List.range k).map (fun c => labelFilter labels c 0 stops)

/-- `cluster_stops` of `clustering_service.py`.  The external k-means
(`KMeans(...).fit_predict`) is modelled by its output `labels`; the grouping
and the removal of empty clusters are translated directly. -/
def cluster_stops {α : Type} (stops : List α) (cfg : ClusterConfig) (labels : Nat → Nat) :
    List (List α) :=
  if stops.length ≤ cfg.max_stops_per_cluster then [stops]
  else (groupByLabel stops (n_clusters_of cfg stops.length) labels).filter (fun c => !c.isEmpty)

/-- `get_cluster_centroid`: mean of member coordinates, `(0, 0)` if empty. -/
def get_cluster_centroid (h : Heap) (c : List Nat) : Coord :=
  if c = [] then (0, 0)
  else ((((c.map (fun a => (hget h a).latitude)).sum) / (c.length : ℚ)),
        (((c.map (fun a => (hget h a).longitude)).sum) / (c.length : ℚ)))

/-- Inner scan of the nearest-neighbor loop (`for i in range(n_clusters)` with
`if dist < best_dist`); `none` models `best_dist = float('inf')`.  Generic in
the distance function `d`, which stands for `haversine_distance`. -/
def nnScan {β : Type} [LinearOrderedField β] (d : Coord → Coord → β)
    (pos : Coord) (cents : List Coord) :
    Option (Nat × β) → List Nat → Option (Nat × β)
  | best, [] => best
  | best, i :: rest =>
    let di := d pos (cents.getD i (0, 0))
    let best' := match best with
      | none => some (i, di)
      | some (b, bd) => if di < bd then some (i, di) else some (b, bd)
    nnScan d pos cents best' rest

/-- Outer nearest-neighbor loop (`while len(order) < n_clusters`): repeatedly
pick the unvisited cluster nearest to the current position.  `remaining` is
the (ascending) list of unvisited indices; fuel bounds the iteration count and
equals the number of unvisited clusters at the call site. -/
def nnLoop {β : Type} [LinearOrderedField β] (d : Coord → Coord → β) (cents : List Coord) :
    Nat → List Nat → Coord → List Nat → List Nat
  | 0, _, _, order => order
  | f + 1, remaining, pos, order =>
    match nnScan d pos cents none remaining with
    | none => order
    | some bi =>
      nnLoop d cents f (remaining.erase bi.1) (cents.getD bi.1 (0, 0)) (order ++ [bi.1])

/-- Nearest-neighbor part of `optimize_cluster_order` (lines 161-202),
including the `n_clusters <= 1` early return and the two initializations
(start from `start_location`, or from the first cluster's centroid). -/
def nnOrder {β : Type} [LinearOrderedField β] (d : Coord → Coord → β)
    (h : Heap) (clusters : List (List Nat)) (s : Option Coord) : List Nat :=
  let n := clusters.length
  if n ≤ 1 then List.range n
  else
    let cents := clusters.map (get_cluster_centroid h)
    match s with
    | some sp => nnLoop d cents n (List.range n) sp []
    | none => nnLoop d cents n ((List.range n).drop 1) (cents.getD 0 (0, 0)) [0]

/-- `total_distance` closure of `_two_opt_improve`: optional start leg,
consecutive centroid legs, optional end leg. -/
def pathDist {β : Type} [LinearOrderedField β] (d : Coord → Coord → β)
    (cents : List Coord) (s e : Option Coord) (o : List Nat) : β :=
  (match s, o with
   | some sp, x :: _ => d sp (cents.getD x (0, 0))
   | _, _ => 0)
  + ((o.zip (o.drop 1)).map (fun p => d (cents.getD p.1 (0, 0)) (cents.getD p.2 (0, 0)))).sum
  + (match e, o.getLast? with
     | some ep, some x => d (cents.getD x (0, 0)) ep
     | _, _ => 0)

/-- The candidate order `best_order[:i+1] + best_order[i+1:j+1][::-1] +
best_order[j+1:]` of a 2-opt move. -/
def twoOptSegment (o : List Nat) (i j : Nat) : List Nat :=
  o.take (i + 1) ++ ((o.drop (i + 1)).take (j - i)).reverse ++ o.drop (j + 1)

/-- The `(i, j)` pairs scanned by one 2-opt sweep:
`for i in range(len-1): for j in range(i+2, len)`. -/
def twoOptPairs (n : Nat) : List (Nat × Nat) :=
  ((List.range (n - 1)).map (fun i => (List.range' (i + 2) (n - (i + 2))).map (fun j => (i, j)))).flatten

/-- One 2-opt sweep over the pair list, threading the incumbent order, its
length, and the `improved` flag exactly as the source's inner double loop. -/
def twoOptSweep {β : Type} [LinearOrderedField β] (d : Coord → Coord → β)
    (cents : List Coord) (s e : Option Coord) :
    List (Nat × Nat) → List Nat × β × Bool → List Nat × β × Bool
  | [], acc => acc
  | ij :: ps, acc =>
    let newOrder := twoOptSegment acc.1 ij.1 ij.2
    let newDist := pathDist d cents s e newOrder
    if newDist < acc.2.1 then twoOptSweep d cents s e ps (newOrder, newDist, true)
    else twoOptSweep d cents s e ps acc

/-- The `while improved` loop of `_two_opt_improve`.  The source terminates
because each accepted move strictly decreases the total distance and there are
finitely many orders; here the sweep count is bounded by fuel, which the
wrapper sets above that bound's needs for the inputs of interest. -/
def twoOptLoop {β : Type} [LinearOrderedField β] (d : Coord → Coord → β)
    (cents : List Coord) (s e : Option Coord) (pairs : List (Nat × Nat)) :
    Nat → List Nat → β → List Nat
  | 0, best, _ => best
  | f + 1, best, bestDist =>
    let sw := twoOptSweep d cents s e pairs (best, bestDist, false)
    if sw.2.2 then twoOptLoop d cents s e pairs f sw.1 sw.2.1 else sw.1

/-- `_two_opt_improve` of `clustering_service.py`. -/
def two_opt_improve {β : Type} [LinearOrderedField β] (d : Coord → Coord → β)
    (cents : List Coord) (s e : Option Coord) (order : List Nat) : List Nat :=
  twoOptLoop d cents s e (twoOptPairs order.length) (Nat.factorial order.length + 1)
    order (pathDist d cents s e order)

/-- `optimize_cluster_order`, instrumented: the second component records
whether the 2-opt branch (`if end_location and len(order) > 2`) was taken. -/
def optimize_cluster_orderI {β : Type} [LinearOrderedField β] (d : Coord → Coord → β)
    (h : Heap) (clusters : List (List Nat)) (s e : Option Coord) : List Nat × Bool :=
  let order := nnOrder d h clusters s
  let cents := clusters.map (get_cluster_centroid h)
  if e.isSome ∧ 2 < order.length then (two_opt_improve d cents s e order, true)
  else (order, false)

/-- `optimize_cluster_order` of `clustering_service.py`. -/
def optimize_cluster_order {β : Type} [LinearOrderedField β] (d : Coord → Coord → β)
    (h : Heap) (clusters : List (List Nat)) (s e : Option Coord) : List Nat :=
  (optimize_cluster_orderI d h clusters s e).1

/-- Accumulator of the per-cluster optimization loop of
`optimize_route_with_clustering` (step 3). -/
structure ClusterAcc where
  mids : List Nat
  dist : Nat
  dur : Nat
  heap : Heap
  trace : List (List Coord)
  deriving Repr

/-- Exit point of the current cluster: the next cluster's centroid, or the
true end location for the last cluster. -/
def clusterEnd (e : Option Coord) (h : Heap) : List (List Nat) → Option Coord
  | [] => e
  | nxt :: _ => some (get_cluster_centroid h nxt)

/-- Per-cluster loop of `optimize_route_with_clustering`: each cluster is
optimized with entry point `curStart` (the true start for the first cluster,
else the previous cluster's centroid) and exit point the next cluster's
centroid (the true end for the last cluster). -/
def clusterLoop (solver : List Coord → Nat → Nat → Option SolveResult)
    (oracle : Oracle) (cfg : OptimizationConfig) (e : Option Coord) :
    List (List Nat) → Option Coord → Heap → ClusterAcc
  | [], _, h => ⟨[], 0, 0, h, []⟩
  | c :: rest, curStart, h =>
    let r := optimize_routeH solver oracle cfg c curStart (clusterEnd e h rest) h
    let acc := clusterLoop solver oracle cfg e rest (some (get_cluster_centroid r.2.1 c)) r.2.1
    match r.1 with
    | some res =>
      ⟨res.stops ++ acc.mids, res.total_distance_meters + acc.dist,
       res.total_duration_seconds + acc.dur, acc.heap, r.2.2 ++ acc.trace⟩
    | none => acc

/-- `optimize_route_with_clustering` of `or_tools_service.py`, over the heap
of stop dicts; `labels` models the external k-means and `d` the haversine
distance used by the Cluster Sequencer. -/
def optimize_route_with_clusteringH {β : Type} [LinearOrderedField β]
    (solver : List Coord → Nat → Nat → Option SolveResult) (oracle : Oracle)
    (d : Coord → Coord → β) (labels : Nat → Nat) (cfg : OptimizationConfig)
    (stops : List Nat) (s e : Option Coord) (h : Heap) :
    Option RouteResult × Heap × List (List Coord) :=
  let firstB := bucketFirst h stops
  let autoB := bucketAuto h stops
  let lastB := bucketLast h stops
  if autoB = [] ∨ cfg.enable_clustering = false ∨ autoB.length ≤ cfg.max_stops_per_cluster then
    optimize_routeH solver oracle cfg stops s e h
  else
    let cc : ClusterConfig := { max_stops_per_cluster := cfg.max_stops_per_cluster }
    let clusters := cluster_stops autoB cc labels
    let corder := optimize_cluster_order d h clusters s e
    let ordered := corder.map (fun i => clusters.getD i [])
    let acc := clusterLoop solver oracle cfg e ordered s h
    let fc := copySeq acc.heap 1 firstB
    let ms := setSeqRun fc.1 fc.2.2 acc.mids
    let lc := copySeq ms.1 ms.2 lastB
    (some { stops := fc.2.1 ++ acc.mids ++ lc.2.1,
            total_distance_meters := acc.dist,
            total_duration_seconds := acc.dur,
            clusters_used := some clusters.length }, lc.1, acc.trace)

/-! ### Heap lemmas -/

theorem hget_append_lt (h t : Heap) (a : Nat) (ha : a < h.length) :
    hget (h ++ t) a = hget h a := by
  simp only [hget, List.getD_eq_getElem?_getD]
  rw [List.getElem?_append_left ha]

theorem hget_append_self (h : Heap) (s : Stop) :
    hget (h ++ [s]) h.length = s := by
  simp only [hget, List.getD_eq_getElem?_getD]
  rw [List.getElem?_concat_length]
  rfl

theorem hsetSeq_length (h : Heap) (a n : Nat) : (hsetSeq h a n).length = h.length := by
  simp [hsetSeq]

theorem hget_hsetSeq_ne (h : Heap) (a b n : Nat) (hne : a ≠ b) :
    hget (hsetSeq h a n) b = hget h b := by
  simp only [hget, hsetSeq, List.getD_eq_getElem?_getD]
  rw [List.getElem?_set_ne hne]

theorem hget_hsetSeq_self (h : Heap) (a n : Nat) (ha : a < h.length) :
    hget (hsetSeq h a n) a = { hget h a with sequence_order := some n } := by
  simp only [hget, hsetSeq, List.getD_eq_getElem?_getD]
  rw [List.getElem?_set_self ha]
  rfl

/-! ### `copySeq` lemmas -/

theorem copySeq_heap_length (h : Heap) (q : Nat) (as : List Nat) :
    ((copySeq h q as).1).length = h.length + as.length := by
  induction as generalizing h q with
  | nil => simp [copySeq]
  | cons a as ih =>
    simp only [copySeq, halloc]
    rw [ih]
    simp
    omega

theorem copySeq_addrs (h : Heap) (q : Nat) (as : List Nat) :
    (copySeq h q as).2.1 = List.range' h.length as.length := by
  induction as generalizing h q with
  | nil => simp [copySeq]
  | cons a as ih =>
    simp only [copySeq, halloc]
    rw [ih]
    simp [List.range'_succ]

theorem copySeq_next (h : Heap) (q : Nat) (as : List Nat) :
    (copySeq h q as).2.2 = q + as.length := by
  induction as generalizing h q with
  | nil => simp [copySeq]
  | cons a as ih =>
    simp only [copySeq, halloc]
    rw [ih]
    simp [List.length_cons]
    omega

theorem copySeq_old (h : Heap) (q : Nat) (as : List Nat) (b : Nat) (hb : b < h.length) :
    hget ((copySeq h q as).1) b = hget h b := by
  induction as generalizing h q with
  | nil => simp [copySeq]
  | cons a as ih =>
    simp only [copySeq, halloc]
    rw [ih _ _ (by simp; omega)]
    exact hget_append_lt _ _ _ hb

theorem getD_mem_of_lt (l : List Nat) (i : Nat) (hi : i < l.length) : l.getD i 0 ∈ l := by
  simp only [List.getD_eq_getElem?_getD]
  rw [List.getElem?_eq_getElem hi]
  exact List.getElem_mem hi

theorem copySeq_content (h : Heap) (q : Nat) (as : List Nat)
    (hv : ∀ x ∈ as, x < h.length) (i : Nat) (hi : i < as.length) :
    hget ((copySeq h q as).1) (h.length + i) =
      { hget h (as.getD i 0) with sequence_order := some (q + i) } := by
  induction as generalizing h q i with
  | nil => simp at hi
  | cons a as ih =>
    match i with
    | 0 =>
      simp only [copySeq, halloc, List.getD_cons_zero, Nat.add_zero]
      rw [copySeq_old _ _ _ _ (by simp)]
      exact hget_append_self h _
    | i + 1 =>
      have hmem : as.getD i 0 ∈ as := getD_mem_of_lt as i (by simpa using hi)
      have hvx : as.getD i 0 < h.length := hv _ (List.mem_cons_of_mem _ hmem)
      have hv' : ∀ x ∈ as, x < (h ++ [{ hget h a with sequence_order := some q }]).length := by
        intro x hx
        simp only [List.length_append, List.length_cons, List.length_nil]
        exact Nat.lt_succ_of_lt (hv x (List.mem_cons_of_mem _ hx))
      have key := ih (h ++ [{ hget h a with sequence_order := some q }]) (q + 1) hv' i
        (by simpa using hi)
      simp only [List.length_append, List.length_cons, List.length_nil, Nat.add_zero] at key
      rw [hget_append_lt _ _ _ hvx] at key
      have harith : q + 1 + i = q + (i + 1) := by omega
      rw [harith] at key
      simp only [copySeq, halloc, List.getD_cons_succ]
      rw [show h.length + (i + 1) = h.length + 1 + i by omega]
      exact key

/-! ### `setSeqRun` lemmas -/

theorem setSeqRun_length (h : Heap) (q : Nat) (as : List Nat) :
    ((setSeqRun h q as).1).length = h.length := by
  induction as generalizing h q with
  | nil => simp [setSeqRun]
  | cons a as ih => simp only [setSeqRun]; rw [ih, hsetSeq_length]

theorem setSeqRun_next (h : Heap) (q : Nat) (as : List Nat) :
    (setSeqRun h q as).2 = q + as.length := by
  induction as generalizing h q with
  | nil => simp [setSeqRun]
  | cons a as ih =>
    simp only [setSeqRun]
    rw [ih]
    simp [List.length_cons]
    omega

theorem setSeqRun_not_mem (h : Heap) (q : Nat) (as : List Nat) (b : Nat) (hb : b ∉ as) :
    hget ((setSeqRun h q as).1) b = hget h b := by
  induction as generalizing h q with
  | nil => simp [setSeqRun]
  | cons a as ih =>
    simp only [setSeqRun]
    rw [ih _ _ (fun hmem => hb (List.mem_cons_of_mem _ hmem)),
      hget_hsetSeq_ne _ _ _ _ (fun hc => hb (by rw [← hc]; exact List.mem_cons_self a as))]

theorem setSeqRun_content (h : Heap) (q : Nat) (as : List Nat)
    (hnd : as.Nodup) (hv : ∀ x ∈ as, x < h.length) (i : Nat) (hi : i < as.length) :
    hget ((setSeqRun h q as).1) (as.getD i 0) =
      { hget h (as.getD i 0) with sequence_order := some (q + i) } := by
  induction as generalizing h q i with
  | nil => simp at hi
  | cons a as ih =>
    simp only [setSeqRun]
    match i with
    | 0 =>
      have ha : a ∉ as := (List.nodup_cons.mp hnd).1
      simp only [List.getD_cons_zero]
      rw [setSeqRun_not_mem _ _ _ _ ha, hget_hsetSeq_self _ _ _ (hv a (List.mem_cons_self a as))]
      simp
    | i + 1 =>
      have ha : a ∉ as := (List.nodup_cons.mp hnd).1
      have hmem : as.getD i 0 ∈ as := by
        simp only [List.getD_eq_getElem?_getD]
        have : i < as.length := by simpa using hi
        rw [List.getElem?_eq_getElem this]
        exact List.getElem_mem this
      simp only [List.getD_cons_succ]
      rw [ih _ _ (List.nodup_cons.mp hnd).2
        (fun x hx => by rw [hsetSeq_length]; exact hv x (List.mem_cons_of_mem _ hx))
        i (by simpa using hi),
        hget_hsetSeq_ne _ _ _ _ (fun hc => ha (by rw [hc]; exact hmem))]
      simp [show q + 1 + i = q + (i + 1) by omega]

/-! ### `buildAuto` lemmas -/

theorem buildAuto_heap_length (autoB : List Nat) (startIdx : Nat) (e : Option Coord)
    (endIdx offset : Nat) (h : Heap) (route : List Nat) :
    ((buildAuto autoB startIdx e endIdx offset h route).1).length =
      h.length + ((buildAuto autoB startIdx e endIdx offset h route).2).length := by
  induction route generalizing h with
  | nil => simp [buildAuto]
  | cons n rest ih =>
    by_cases hskip : n = startIdx ∨ (e.isSome ∧ n = endIdx)
    · simp only [buildAuto, if_pos hskip]
      exact ih h
    · simp only [buildAuto, if_neg hskip]
      by_cases hin : 0 ≤ (n : Int) - (offset : Int) ∧ (n : Int) - (offset : Int) < (autoB.length : Int)
      · simp only [if_pos hin, halloc]
        rw [ih]
        simp
        omega
      · simp only [if_neg hin]
        exact ih h

theorem buildAuto_addrs (autoB : List Nat) (startIdx : Nat) (e : Option Coord)
    (endIdx offset : Nat) (h : Heap) (route : List Nat) :
    (buildAuto autoB startIdx e endIdx offset h route).2 =
      List.range' h.length ((buildAuto autoB startIdx e endIdx offset h route).2).length := by
  induction route generalizing h with
  | nil => simp [buildAuto]
  | cons n rest ih =>
    by_cases hskip : n = startIdx ∨ (e.isSome ∧ n = endIdx)
    · simp only [buildAuto, if_pos hskip]
      exact ih h
    · simp only [buildAuto, if_neg hskip]
      by_cases hin : 0 ≤ (n : Int) - (offset : Int) ∧ (n : Int) - (offset : Int) < (autoB.length : Int)
      · simp only [if_pos hin, halloc]
        rw [ih]
        simp [List.range'_succ]
      · simp only [if_neg hin]
        exact ih h

theorem buildAuto_old (autoB : List Nat) (startIdx : Nat) (e : Option Coord)
    (endIdx offset : Nat) (h : Heap) (route : List Nat) (b : Nat) (hb : b < h.length) :
    hget ((buildAuto autoB startIdx e endIdx offset h route).1) b = hget h b := by
  induction route generalizing h with
  | nil => simp [buildAuto]
  | cons n rest ih =>
    by_cases hskip : n = startIdx ∨ (e.isSome ∧ n = endIdx)
    · simp only [buildAuto, if_pos hskip]
      exact ih h hb
    · simp only [buildAuto, if_neg hskip]
      by_cases hin : 0 ≤ (n : Int) - (offset : Int) ∧ (n : Int) - (offset : Int) < (autoB.length : Int)
      · simp only [if_pos hin, halloc]
        rw [ih _ (by simp; omega)]
        exact hget_append_lt _ _ _ hb
      · simp only [if_neg hin]
        exact ih h hb

theorem buildAuto_content (autoB : List Nat) (startIdx : Nat) (e : Option Coord)
    (endIdx offset : Nat) (h : Heap) (route : List Nat)
    (hv : ∀ x ∈ autoB, x < h.length) (m : Nat)
    (hm : m ∈ (buildAuto autoB startIdx e endIdx offset h route).2) :
    ∃ b ∈ autoB, hget ((buildAuto autoB startIdx e endIdx offset h route).1) m = hget h b := by
  induction route generalizing h with
  | nil => simp [buildAuto] at hm
  | cons n rest ih =>
    by_cases hskip : n = startIdx ∨ (e.isSome ∧ n = endIdx)
    · simp only [buildAuto, if_pos hskip] at hm ⊢
      exact ih h hv hm
    · simp only [buildAuto, if_neg hskip] at hm ⊢
      by_cases hin : 0 ≤ (n : Int) - (offset : Int) ∧ (n : Int) - (offset : Int) < (autoB.length : Int)
      · simp only [if_pos hin, halloc] at hm ⊢
        have hb0 : autoB.getD ((n : Int) - (offset : Int)).toNat 0 ∈ autoB := by
          have hlt : ((n : Int) - (offset : Int)).toNat < autoB.length := by omega
          simp only [List.getD_eq_getElem?_getD]
          rw [List.getElem?_eq_getElem hlt]
          exact List.getElem_mem hlt
        rcases List.mem_cons.mp hm with hm1 | hm2
        · refine ⟨autoB.getD ((n : Int) - (offset : Int)).toNat 0, hb0, ?_⟩
          subst hm1
          rw [buildAuto_old _ _ _ _ _ _ _ _ (by simp)]
          exact hget_append_self h _
        · obtain ⟨b, hbmem, hbeq⟩ := ih (h ++ [hget h (autoB.getD ((n : Int) - (offset : Int)).toNat 0)])
            (fun x hx => by simp; exact Nat.lt_succ_of_lt (hv x hx)) hm2
          refine ⟨b, hbmem, ?_⟩
          rw [hbeq, hget_append_lt _ _ _ (hv b hbmem)]
      · simp only [if_neg hin] at hm ⊢
        exact ih h hv hm

/-! ### Multi-start solve loop lemmas -/

/-- Invariant of the multi-start fold: what the incumbent can be after
processing a list of attempts. -/
def SolveGood (processed : List Attempt) (b : Option SolveResult × WithTop Nat) : Prop :=
  (b = (none, ⊤) ∧ ∀ a ∈ processed, a = none)
  ∨ (∃ (c : Nat) (s : SolveResult), b = (some s, WithTop.some c) ∧ some (c, s) ∈ processed ∧
      ∀ p : Nat × SolveResult, some p ∈ processed → c ≤ p.1)

theorem solveStep_good (processed : List Attempt) (b : Option SolveResult × WithTop Nat)
    (att : Attempt) (hb : SolveGood processed b) :
    SolveGood (processed ++ [att]) (solveStep b att) := by
  match att with
  | none =>
    simp only [solveStep]
    rcases hb with ⟨hb1, hb2⟩ | ⟨c, s, hb1, hb2, hb3⟩
    · refine Or.inl ⟨hb1, ?_⟩
      intro a ha
      rcases List.mem_append.mp ha with h1 | h1
      · exact hb2 a h1
      · exact List.mem_singleton.mp h1
    · refine Or.inr ⟨c, s, hb1, List.mem_append_left _ hb2, ?_⟩
      intro p hp
      rcases List.mem_append.mp hp with h1 | h1
      · exact hb3 p h1
      · exact absurd (List.mem_singleton.mp h1) (by simp)
  | some (c2, s2) =>
    rcases hb with ⟨hb1, hb2⟩ | ⟨c, s, hb1, hb2, hb3⟩
    · have hbtop : b.2 = ⊤ := by rw [hb1]
      simp only [solveStep, hbtop]
      rw [if_pos (WithTop.coe_lt_top c2)]
      refine Or.inr ⟨c2, s2, rfl, List.mem_append_right _ (List.mem_singleton.mpr rfl), ?_⟩
      intro p hp
      rcases List.mem_append.mp hp with h1 | h1
      · exact absurd (hb2 _ h1) (by simp)
      · have hp2 := Option.some_inj.mp (List.mem_singleton.mp h1)
        simp [hp2]
    · have hb2' : b.2 = WithTop.some c := by rw [hb1]
      simp only [solveStep, hb2']
      by_cases hlt : WithTop.some c2 < WithTop.some c
      · rw [if_pos hlt]
        have hlt' : c2 < c := WithTop.coe_lt_coe.mp hlt
        refine Or.inr ⟨c2, s2, rfl, List.mem_append_right _ (List.mem_singleton.mpr rfl), ?_⟩
        intro p hp
        rcases List.mem_append.mp hp with h1 | h1
        · exact le_trans (le_of_lt hlt') (hb3 p h1)
        · have hp2 := Option.some_inj.mp (List.mem_singleton.mp h1)
          simp [hp2]
      · rw [if_neg hlt]
        have hge : c ≤ c2 := WithTop.coe_le_coe.mp (not_lt.mp hlt)
        refine Or.inr ⟨c, s, hb1, List.mem_append_left _ hb2, ?_⟩
        intro p hp
        rcases List.mem_append.mp hp with h1 | h1
        · exact hb3 p h1
        · have hp2 := Option.some_inj.mp (List.mem_singleton.mp h1)
          rw [hp2]
          exact hge

theorem solveFold_good (atts : List Attempt) (processed : List Attempt)
    (b : Option SolveResult × WithTop Nat) (hb : SolveGood processed b) :
    SolveGood (processed ++ atts) (atts.foldl solveStep b) := by
  induction atts generalizing processed b with
  | nil => simpa using hb
  | cons a as ih =>
    have := ih (processed ++ [a]) (solveStep b a) (solveStep_good processed b a hb)
    simpa [List.append_assoc] using this

theorem solveLoop_good (atts : List Attempt) : SolveGood atts (solveLoop atts) := by
  have := solveFold_good atts [] (none, ⊤) (Or.inl ⟨rfl, by simp⟩)
  simpa [solveLoop] using this

/-- `solveLoop` returns `none` exactly when every attempt failed. -/
theorem solveLoop_none_iff (atts : List Attempt) :
    (solveLoop atts).1 = none ↔ ∀ a ∈ atts, a = none := by
  rcases solveLoop_good atts with ⟨hb1, hb2⟩ | ⟨c, s, hb1, hb2, hb3⟩
  · constructor
    · intro _
      exact hb2
    · intro _
      rw [hb1]
  · constructor
    · intro hcon
      rw [hb1] at hcon
      simp at hcon
    · intro hall
      have := hall _ hb2
      simp at this

/-- The incumbent cost is non-increasing along the fold. -/
theorem solveStep_snd_le (b : Option SolveResult × WithTop Nat) (att : Attempt) :
    (solveStep b att).2 ≤ b.2 := by
  match att with
  | none => exact le_refl _
  | some (c2, s2) =>
    simp only [solveStep]
    by_cases hlt : WithTop.some c2 < b.2
    · rw [if_pos hlt]
      exact le_of_lt hlt
    · rw [if_neg hlt]

theorem solveFold_snd_le (atts : List Attempt) (b : Option SolveResult × WithTop Nat) :
    (atts.foldl solveStep b).2 ≤ b.2 := by
  induction atts generalizing b with
  | nil => exact le_refl _
  | cons a as ih => exact le_trans (ih (solveStep b a)) (solveStep_snd_le b a)

/-- Retained best cost after the first `k` attempts of `VRPSolver.solve`. -/
def runBest (atts : Nat → Attempt) (k : Nat) : WithTop Nat :=
  (solveLoop ((List.range k).map atts)).2

theorem runBest_antitone (atts : Nat → Attempt) (j k : Nat) (hjk : j ≤ k) :
    runBest atts k ≤ runBest atts j := by
  obtain ⟨m, rfl⟩ := Nat.exists_eq_add_of_le hjk
  simp only [runBest, solveLoop, List.range_add, List.map_append, List.foldl_append]
  exact solveFold_snd_le _ _

/-! ### Cluster partition lemmas -/

theorem flattenUpdate_perm {γ : Type} (c₀ : Nat) (x : γ) (g : Nat → List γ) :
    ∀ (L : List Nat), L.Nodup → c₀ ∈ L →
      ((L.map (fun c => if c₀ = c then x :: g c else g c)).flatten).Perm
        (x :: (L.map g).flatten) := by
  intro L
  induction L with
  | nil => intro _ hc; simp at hc
  | cons a L ih =>
    intro hnd hc
    by_cases hca : c₀ = a
    · have hnotin : c₀ ∉ L := by
        rw [hca]
        exact (List.nodup_cons.mp hnd).1
      have hmapeq : L.map (fun c => if c₀ = c then x :: g c else g c) = L.map g := by
        apply List.map_congr_left
        intro c hcL
        rw [if_neg (fun hcc => hnotin (by rw [hcc]; exact hcL))]
      simp only [List.map_cons, if_pos hca, List.flatten_cons, hmapeq]
      exact List.Perm.refl _
    · have hcL : c₀ ∈ L := by
        rcases List.mem_cons.mp hc with h1 | h1
        · exact absurd h1 hca
        · exact h1
      have ihL := ih (List.nodup_cons.mp hnd).2 hcL
      simp only [List.map_cons, if_neg hca, List.flatten_cons]
      exact (List.Perm.append_left _ ihL).trans List.perm_middle

theorem labelFilter_partition {α : Type} (labels : Nat → Nat) (k : Nat) :
    ∀ (xs : List α) (i : Nat), (∀ j, j < xs.length → labels (i + j) < k) →
      (((List.range k).map (fun c => labelFilter labels c i xs)).flatten).Perm xs := by
  intro xs
  induction xs with
  | nil =>
    intro i _
    simp [labelFilter]
  | cons x xs ih =>
    intro i h
    have hx : labels i < k := by
      have := h 0 (by simp)
      simpa using this
    have hmap : (List.range k).map (fun c => labelFilter labels c i (x :: xs)) =
        (List.range k).map (fun c =>
          if labels i = c then x :: labelFilter labels c (i + 1) xs
          else labelFilter labels c (i + 1) xs) := by
      apply List.map_congr_left
      intro c _
      rfl
    rw [hmap]
    have hupd := flattenUpdate_perm (labels i) x (fun c => labelFilter labels c (i + 1) xs)
      (List.range k) (List.nodup_range k) (List.mem_range.mpr hx)
    refine hupd.trans (List.Perm.cons x ?_)
    apply ih
    intro j hj
    have := h (j + 1) (by simpa using Nat.succ_lt_succ hj)
    rwa [show i + (j + 1) = i + 1 + j by omega] at this

theorem flatten_filter_nonempty {γ : Type} :
    ∀ (L : List (List γ)), ((L.filter (fun c => !c.isEmpty)).flatten) = L.flatten := by
  intro L
  induction L with
  | nil => rfl
  | cons c L ih =>
    by_cases hc : c.isEmpty
    · have hcnil : c = [] := List.isEmpty_iff.mp hc
      simp [List.filter_cons, hc, hcnil, ih]
    · simp [List.filter_cons, hc, ih]

/-- The clusters built for an oversized stop list form an exact partition of
the input (as a permutation of the concatenation) with no empty cluster. -/
theorem cluster_stops_partition {α : Type} (stops : List α) (cfg : ClusterConfig)
    (labels : Nat → Nat) (hgt : cfg.max_stops_per_cluster < stops.length)
    (hlab : ∀ i, i < stops.length → labels i < n_clusters_of cfg stops.length) :
    ((cluster_stops stops cfg labels).flatten).Perm stops ∧
      ∀ c ∈ cluster_stops stops cfg labels, c ≠ [] := by
  constructor
  · simp only [cluster_stops, if_neg (not_le.mpr hgt)]
    rw [flatten_filter_nonempty]
    apply labelFilter_partition
    intro j hj
    simpa using hlab j hj
  · intro c hc
    simp only [cluster_stops, if_neg (not_le.mpr hgt)] at hc
    have := List.of_mem_filter hc
    simpa [List.isEmpty_iff] using this

theorem labelFilter_subset {α : Type} (labels : Nat → Nat) (c : Nat) :
    ∀ (xs : List α) (i : Nat) (x : α), x ∈ labelFilter labels c i xs → x ∈ xs := by
  intro xs
  induction xs with
  | nil => intro i x hx; simp [labelFilter] at hx
  | cons y xs ih =>
    intro i x hx
    by_cases hc : labels i = c
    · simp only [labelFilter, if_pos hc] at hx
      rcases List.mem_cons.mp hx with h1 | h1
      · exact h1 ▸ List.mem_cons_self y xs
      · exact List.mem_cons_of_mem _ (ih (i + 1) x h1)
    · simp only [labelFilter, if_neg hc] at hx
      exact List.mem_cons_of_mem _ (ih (i + 1) x hx)

/-- Every member of every returned cluster is one of the input stops. -/
theorem cluster_stops_mem {α : Type} (stops : List α) (cfg : ClusterConfig)
    (labels : Nat → Nat) (c : List α) (hc : c ∈ cluster_stops stops cfg labels)
    (x : α) (hx : x ∈ c) : x ∈ stops := by
  by_cases hle : stops.length ≤ cfg.max_stops_per_cluster
  · simp only [cluster_stops, if_pos hle] at hc
    rw [List.mem_singleton.mp hc] at hx
    exact hx
  · simp only [cluster_stops, if_neg hle] at hc
    have hc2 := List.mem_of_mem_filter hc
    simp only [groupByLabel, List.mem_map] at hc2
    obtain ⟨lab, _, hlab⟩ := hc2
    rw [← hlab] at hx
    exact labelFilter_subset labels lab stops 0 x hx

/-! ### Nearest-neighbor and 2-opt lemmas -/

theorem nnScan_ne_none {β : Type} [LinearOrderedField β] (d : Coord → Coord → β)
    (pos : Coord) (cents : List Coord) :
    ∀ (rem : List Nat) (bv : Nat × β), nnScan d pos cents (some bv) rem ≠ none := by
  intro rem
  induction rem with
  | nil => intro bv h; simp [nnScan] at h
  | cons i rest ih =>
    intro bv
    simp only [nnScan]
    by_cases hlt : d pos (cents.getD i (0, 0)) < bv.2
    · simp only [hlt, if_pos]
      exact ih _
    · simp only [hlt, if_neg, not_false_iff]
      exact ih _

theorem nnScan_mem {β : Type} [LinearOrderedField β] (d : Coord → Coord → β)
    (pos : Coord) (cents : List Coord) :
    ∀ (rem : List Nat) (best : Option (Nat × β)) (bi : Nat × β),
      nnScan d pos cents best rem = some bi → best = some bi ∨ bi.1 ∈ rem := by
  intro rem
  induction rem with
  | nil =>
    intro best bi h
    simp only [nnScan] at h
    exact Or.inl h
  | cons i rest ih =>
    intro best bi h
    simp only [nnScan] at h
    match best with
    | none =>
      rcases ih _ _ h with h1 | h1
      · have : bi = (i, d pos (cents.getD i (0, 0))) := (Option.some_inj.mp h1).symm
        exact Or.inr (by rw [this]; exact List.mem_cons_self _ _)
      · exact Or.inr (List.mem_cons_of_mem _ h1)
    | some (b, bd) =>
      have h2 : nnScan d pos cents
          (if d pos (cents.getD i (0, 0)) < bd then some (i, d pos (cents.getD i (0, 0)))
           else some (b, bd)) rest = some bi := h
      by_cases hlt : d pos (cents.getD i (0, 0)) < bd
      · rw [if_pos hlt] at h2
        rcases ih _ _ h2 with h1 | h1
        · have : bi = (i, d pos (cents.getD i (0, 0))) := (Option.some_inj.mp h1).symm
          exact Or.inr (by rw [this]; exact List.mem_cons_self _ _)
        · exact Or.inr (List.mem_cons_of_mem _ h1)
      · rw [if_neg hlt] at h2
        rcases ih _ _ h2 with h1 | h1
        · exact Or.inl (by rw [← h1])
        · exact Or.inr (List.mem_cons_of_mem _ h1)

theorem nnScan_none_start_mem {β : Type} [LinearOrderedField β] (d : Coord → Coord → β)
    (pos : Coord) (cents : List Coord) (rem : List Nat) (bi : Nat × β)
    (h : nnScan d pos cents none rem = some bi) : bi.1 ∈ rem := by
  rcases nnScan_mem d pos cents rem none bi h with h1 | h1
  · exact absurd h1.symm (by simp)
  · exact h1

theorem nnScan_none_of_nil {β : Type} [LinearOrderedField β] (d : Coord → Coord → β)
    (pos : Coord) (cents : List Coord) : nnScan d pos cents none [] = none := rfl

theorem nnScan_cons_isSome {β : Type} [LinearOrderedField β] (d : Coord → Coord → β)
    (pos : Coord) (cents : List Coord) (i : Nat) (rest : List Nat) :
    (nnScan d pos cents none (i :: rest)).isSome := by
  simp only [nnScan]
  match hscan : nnScan d pos cents (some (i, d pos (cents.getD i (0, 0)))) rest with
  | some bv => simp
  | none => exact absurd hscan (nnScan_ne_none d pos cents rest _)

theorem nnLoop_length {β : Type} [LinearOrderedField β] (d : Coord → Coord → β)
    (cents : List Coord) :
    ∀ (fuel : Nat) (rem : List Nat) (pos : Coord) (order : List Nat),
      rem.length ≤ fuel →
      (nnLoop d cents fuel rem pos order).length = order.length + rem.length := by
  intro fuel
  induction fuel with
  | zero =>
    intro rem pos order hle
    have : rem = [] := List.length_eq_zero.mp (Nat.le_zero.mp hle)
    subst this
    simp [nnLoop]
  | succ f ih =>
    intro rem pos order hle
    match rem with
    | [] => simp [nnLoop, nnScan]
    | i :: rest =>
      simp only [nnLoop]
      match hscan : nnScan d pos cents none (i :: rest) with
      | none =>
        exact absurd hscan (by
          have := nnScan_cons_isSome d pos cents i rest
          intro hnone
          rw [hnone] at this
          simp at this)
      | some bi =>
        have hmem : bi.1 ∈ i :: rest := nnScan_none_start_mem d pos cents _ _ hscan
        have herase : ((i :: rest).erase bi.1).length = rest.length := by
          rw [List.length_erase_of_mem hmem]
          simp
        simp only [List.length_cons] at hle
        have hfuel : ((i :: rest).erase bi.1).length ≤ f := by
          rw [herase]
          omega
        rw [ih _ _ _ hfuel, herase]
        simp only [List.length_append, List.length_cons, List.length_nil]
        omega

theorem nnLoop_subset {β : Type} [LinearOrderedField β] (d : Coord → Coord → β)
    (cents : List Coord) :
    ∀ (fuel : Nat) (rem : List Nat) (pos : Coord) (order : List Nat) (x : Nat),
      x ∈ nnLoop d cents fuel rem pos order → x ∈ order ∨ x ∈ rem := by
  intro fuel
  induction fuel with
  | zero =>
    intro rem pos order x hx
    exact Or.inl hx
  | succ f ih =>
    intro rem pos order x hx
    simp only [nnLoop] at hx
    match hscan : nnScan d pos cents none rem with
    | none =>
      rw [hscan] at hx
      exact Or.inl hx
    | some bi =>
      rw [hscan] at hx
      have hmem : bi.1 ∈ rem := nnScan_none_start_mem d pos cents _ _ hscan
      rcases ih _ _ _ x hx with h1 | h1
      · rcases List.mem_append.mp h1 with h2 | h2
        · exact Or.inl h2
        · exact Or.inr (by rw [List.mem_singleton.mp h2]; exact hmem)
      · exact Or.inr (List.erase_subset _ _ h1)

theorem twoOptSegment_perm (o : List Nat) (i j : Nat) (hij : i ≤ j) :
    (twoOptSegment o i j).Perm o := by
  have hdd : (o.drop (i + 1)).drop (j - i) = o.drop (j + 1) := by
    rw [List.drop_drop]
    congr 1
    omega
  have hsplit : o = o.take (i + 1) ++ ((o.drop (i + 1)).take (j - i) ++ o.drop (j + 1)) := by
    conv_lhs => rw [← List.take_append_drop (i + 1) o]
    congr 1
    conv_lhs => rw [← List.take_append_drop (j - i) (o.drop (i + 1))]
    rw [hdd]
  rw [twoOptSegment, List.append_assoc]
  conv_rhs => rw [hsplit]
  exact List.Perm.append_left _
    ((List.perm_append_right_iff _).mpr (List.reverse_perm _))

theorem twoOptPairs_le (n : Nat) (p : Nat × Nat) (hp : p ∈ twoOptPairs n) : p.1 ≤ p.2 := by
  simp only [twoOptPairs, List.mem_flatten, List.mem_map] at hp
  obtain ⟨l, ⟨i, hi, rfl⟩, hpl⟩ := hp
  simp only [List.mem_map] at hpl
  obtain ⟨j, hj, rfl⟩ := hpl
  have := List.mem_range'_1.mp hj
  simp only
  omega

theorem twoOptSweep_perm {β : Type} [LinearOrderedField β] (d : Coord → Coord → β)
    (cents : List Coord) (s e : Option Coord) (o : List Nat) :
    ∀ (ps : List (Nat × Nat)) (acc : List Nat × β × Bool),
      (∀ p ∈ ps, p.1 ≤ p.2) → acc.1.Perm o →
      ((twoOptSweep d cents s e ps acc).1).Perm o := by
  intro ps
  induction ps with
  | nil => intro acc _ hacc; exact hacc
  | cons ij ps ih =>
    intro acc hps hacc
    simp only [twoOptSweep]
    split
    · exact ih _ (fun p hp => hps p (List.mem_cons_of_mem _ hp))
        ((twoOptSegment_perm _ _ _ (hps ij (List.mem_cons_self _ _))).trans hacc)
    · exact ih _ (fun p hp => hps p (List.mem_cons_of_mem _ hp)) hacc

theorem twoOptLoop_perm {β : Type} [LinearOrderedField β] (d : Coord → Coord → β)
    (cents : List Coord) (s e : Option Coord) (pairs : List (Nat × Nat)) (o : List Nat)
    (hps : ∀ p ∈ pairs, p.1 ≤ p.2) :
    ∀ (fuel : Nat) (best : List Nat) (bd : β), best.Perm o →
      (twoOptLoop d cents s e pairs fuel best bd).Perm o := by
  intro fuel
  induction fuel with
  | zero => intro best bd hb; exact hb
  | succ f ih =>
    intro best bd hb
    simp only [twoOptLoop]
    have hsw := twoOptSweep_perm d cents s e o pairs (best, bd, false) hps hb
    split
    · exact ih _ _ hsw
    · exact hsw

theorem two_opt_improve_perm {β : Type} [LinearOrderedField β] (d : Coord → Coord → β)
    (cents : List Coord) (s e : Option Coord) (order : List Nat) :
    (two_opt_improve d cents s e order).Perm order := by
  apply twoOptLoop_perm
  · intro p hp
    exact twoOptPairs_le _ p hp
  · exact List.Perm.refl _

theorem nnOrder_length {β : Type} [LinearOrderedField β] (d : Coord → Coord → β)
    (h : Heap) (clusters : List (List Nat)) (s : Option Coord) :
    (nnOrder d h clusters s).length = clusters.length := by
  simp only [nnOrder]
  by_cases hle : clusters.length ≤ 1
  · rw [if_pos hle]
    simp
  · rw [if_neg hle]
    cases s with
    | some sp =>
      rw [nnLoop_length _ _ _ _ _ _ (by simp)]
      simp
    | none =>
      rw [nnLoop_length _ _ _ _ _ _ (by simp)]
      simp only [List.length_cons, List.length_nil, List.length_drop, List.length_range]
      omega

theorem nnOrder_lt {β : Type} [LinearOrderedField β] (d : Coord → Coord → β)
    (h : Heap) (clusters : List (List Nat)) (s : Option Coord) (x : Nat)
    (hx : x ∈ nnOrder d h clusters s) : x < clusters.length := by
  simp only [nnOrder] at hx
  by_cases hle : clusters.length ≤ 1
  · rw [if_pos hle] at hx
    exact List.mem_range.mp hx
  · rw [if_neg hle] at hx
    cases s with
    | some sp =>
      rcases nnLoop_subset _ _ _ _ _ _ _ hx with h1 | h1
      · simp at h1
      · exact List.mem_range.mp h1
    | none =>
      rcases nnLoop_subset _ _ _ _ _ _ _ hx with h1 | h1
      · rw [List.mem_singleton.mp h1]
        omega
      · exact List.mem_range.mp (List.mem_of_mem_drop h1)

theorem optimize_cluster_orderI_length {β : Type} [LinearOrderedField β]
    (d : Coord → Coord → β) (h : Heap) (clusters : List (List Nat)) (s e : Option Coord) :
    ((optimize_cluster_orderI d h clusters s e).1).length = clusters.length := by
  simp only [optimize_cluster_orderI]
  split
  · rw [(two_opt_improve_perm _ _ _ _ _).length_eq]
    exact nnOrder_length d h clusters s
  · exact nnOrder_length d h clusters s

theorem optimize_cluster_orderI_lt {β : Type} [LinearOrderedField β]
    (d : Coord → Coord → β) (h : Heap) (clusters : List (List Nat)) (s e : Option Coord)
    (x : Nat) (hx : x ∈ (optimize_cluster_orderI d h clusters s e).1) :
    x < clusters.length := by
  simp only [optimize_cluster_orderI] at hx
  by_cases hcond : (e.isSome = true) ∧ 2 < (nnOrder d h clusters s).length
  · rw [if_pos hcond] at hx
    exact nnOrder_lt d h clusters s x ((two_opt_improve_perm _ _ _ _ _).mem_iff.mp hx)
  · rw [if_neg hcond] at hx
    exact nnOrder_lt d h clusters s x hx

/-- The 2-opt branch of `optimize_cluster_order` is taken exactly when an end
location is given and more than 2 clusters exist; whether a start location is
given plays no role. -/
theorem optimize_cluster_orderI_flag {β : Type} [LinearOrderedField β]
    (d : Coord → Coord → β) (h : Heap) (clusters : List (List Nat)) (s e : Option Coord) :
    (optimize_cluster_orderI d h clusters s e).2 = true ↔
      (e.isSome = true ∧ 2 < clusters.length) := by
  simp only [optimize_cluster_orderI]
  rw [show (nnOrder d h clusters s).length = clusters.length from nnOrder_length d h clusters s]
  by_cases hcond : (e.isSome = true) ∧ 2 < clusters.length
  · rw [if_pos]
    · simpa using hcond
    · exact hcond
  · rw [if_neg]
    · simpa using hcond
    · exact hcond

theorem optimize_cluster_orderI_false {β : Type} [LinearOrderedField β]
    (d : Coord → Coord → β) (h : Heap) (clusters : List (List Nat)) (s e : Option Coord)
    (hf : (optimize_cluster_orderI d h clusters s e).2 = false) :
    (optimize_cluster_orderI d h clusters s e).1 = nnOrder d h clusters s := by
  simp only [optimize_cluster_orderI] at hf ⊢
  split at hf
  · simp at hf
  · rename_i hcond
    rw [if_neg hcond]

/-! ### `optimize_routeH` equations and structural lemmas -/

theorem getD_append_lt {α : Type} [Inhabited α] (l t : List α) (i : Nat) (d : α)
    (hi : i < l.length) : (l ++ t).getD i d = l.getD i d := by
  simp only [List.getD_eq_getElem?_getD]
  rw [List.getElem?_append_left hi]

theorem getD_append_add {α : Type} [Inhabited α] (l t : List α) (i : Nat) (d : α) :
    (l ++ t).getD (l.length + i) d = t.getD i d := by
  simp only [List.getD_eq_getElem?_getD]
  rw [List.getElem?_append_right (Nat.le_add_right _ _)]
  congr 2
  omega

theorem range'_split (s m n : Nat) :
    List.range' s (m + n) = List.range' s m ++ List.range' (s + m) n := by
  have := List.range'_append s m n 1
  rw [one_mul] at this
  rw [Nat.add_comm m n]
  exact this.symm

theorem optimize_routeH_noauto (solver : List Coord → Nat → Nat → Option SolveResult)
    (oracle : Oracle) (cfg : OptimizationConfig) (stops : List Nat) (s e : Option Coord)
    (h : Heap) (hA : bucketAuto h stops = []) :
    optimize_routeH solver oracle cfg stops s e h =
      (some { stops := (copySeq h 1 (bucketFirst h stops ++ bucketLast h stops)).2.1,
              total_distance_meters := 0, total_duration_seconds := 0 },
       (copySeq h 1 (bucketFirst h stops ++ bucketLast h stops)).1, []) := by
  simp only [optimize_routeH, hA, if_pos]

theorem optimize_routeH_none (solver : List Coord → Nat → Nat → Option SolveResult)
    (oracle : Oracle) (cfg : OptimizationConfig) (stops : List Nat) (s e : Option Coord)
    (h : Heap) (hA : bucketAuto h stops ≠ [])
    (hsol : solver (routeLocations h (bucketAuto h stops) s e) 0
      (endIndex h (bucketAuto h stops) s e) = none) :
    optimize_routeH solver oracle cfg stops s e h = (none, h, []) := by
  simp only [optimize_routeH, if_neg hA, hsol]

theorem optimize_routeH_some (solver : List Coord → Nat → Nat → Option SolveResult)
    (oracle : Oracle) (cfg : OptimizationConfig) (stops : List Nat) (s e : Option Coord)
    (h : Heap) (sol : SolveResult) (hA : bucketAuto h stops ≠ [])
    (hsol : solver (routeLocations h (bucketAuto h stops) s e) 0
      (endIndex h (bucketAuto h stops) s e) = some sol) :
    optimize_routeH solver oracle cfg stops s e h =
      (let refOut :=
        if cfg.use_haversine_precompute = true ∧ 1 < sol.route.length then
          refineH oracle (routeLocations h (bucketAuto h stops) s e) sol.route
        else ((sol.total_distance_meters, sol.total_duration_seconds), [])
       let ba := buildAuto (bucketAuto h stops) 0 e (endIndex h (bucketAuto h stops) s e)
         (if s.isSome then 1 else 0) h sol.route
       let fc := copySeq ba.1 1 (bucketFirst h stops)
       let ms := setSeqRun fc.1 fc.2.2 ba.2
       let lc := copySeq ms.1 ms.2 (bucketLast h stops)
       (some { stops := fc.2.1 ++ ba.2 ++ lc.2.1,
               total_distance_meters := refOut.1.1,
               total_duration_seconds := refOut.1.2 }, lc.1, refOut.2)) := by
  simp only [optimize_routeH, if_neg hA, hsol]

/-- `optimize_route` never changes a dict that existed before the call. -/
theorem optimize_routeH_preserves (solver : List Coord → Nat → Nat → Option SolveResult)
    (oracle : Oracle) (cfg : OptimizationConfig) (stops : List Nat) (s e : Option Coord)
    (h : Heap) (b : Nat) (hb : b < h.length) :
    hget ((optimize_routeH solver oracle cfg stops s e h).2.1) b = hget h b := by
  by_cases hA : bucketAuto h stops = []
  · rw [optimize_routeH_noauto solver oracle cfg stops s e h hA]
    exact copySeq_old _ _ _ _ hb
  · match hsol : solver (routeLocations h (bucketAuto h stops) s e) 0
      (endIndex h (bucketAuto h stops) s e) with
    | none =>
      rw [optimize_routeH_none solver oracle cfg stops s e h hA hsol]
    | some sol =>
      rw [optimize_routeH_some solver oracle cfg stops s e h sol hA hsol]
      simp only
      set ba := buildAuto (bucketAuto h stops) 0 e (endIndex h (bucketAuto h stops) s e)
        (if s.isSome then 1 else 0) h sol.route with hba
      set fc := copySeq ba.1 1 (bucketFirst h stops) with hfc
      set ms := setSeqRun fc.1 fc.2.2 ba.2 with hms
      have hb1 : b < ba.1.length := by
        rw [buildAuto_heap_length]
        omega
      have hb2 : b < fc.1.length := by
        rw [hfc, copySeq_heap_length]
        omega
      have hnotmem : b ∉ ba.2 := by
        intro hmem
        rw [buildAuto_addrs] at hmem
        have := List.mem_range'_1.mp hmem
        omega
      rw [copySeq_old _ _ _ _ (by rw [hms, setSeqRun_length]; exact hb2),
        setSeqRun_not_mem _ _ _ _ hnotmem, copySeq_old _ _ _ _ hb1,
        buildAuto_old _ _ _ _ _ _ _ _ hb]

/-- The heap only grows across `optimize_route`. -/
theorem optimize_routeH_heap_le (solver : List Coord → Nat → Nat → Option SolveResult)
    (oracle : Oracle) (cfg : OptimizationConfig) (stops : List Nat) (s e : Option Coord)
    (h : Heap) :
    h.length ≤ ((optimize_routeH solver oracle cfg stops s e h).2.1).length := by
  by_cases hA : bucketAuto h stops = []
  · rw [optimize_routeH_noauto solver oracle cfg stops s e h hA]
    simp only
    rw [copySeq_heap_length]
    omega
  · match hsol : solver (routeLocations h (bucketAuto h stops) s e) 0
      (endIndex h (bucketAuto h stops) s e) with
    | none =>
      rw [optimize_routeH_none solver oracle cfg stops s e h hA hsol]
    | some sol =>
      rw [optimize_routeH_some solver oracle cfg stops s e h sol hA hsol]
      simp only
      rw [copySeq_heap_length, setSeqRun_length, copySeq_heap_length, buildAuto_heap_length]
      omega

theorem getD_range' (s n i d : Nat) (hi : i < n) : (List.range' s n).getD i d = s + i := by
  simp only [List.getD_eq_getElem?_getD]
  rw [List.getElem?_range' _ _ hi]
  simp

/-- The bucket predicates: `s.get('order_preference') == 'first'`,
`s.get('order_preference', 'auto') == 'auto'`, and
`s.get('order_preference') == 'last'` on a stop dict. -/
def isFirstStop (st : Stop) : Prop := st.order_preference = some "first"

def isAutoStop (st : Stop) : Prop := st.order_preference.getD "auto" = "auto"

def isLastStop (st : Stop) : Prop := st.order_preference = some "last"

theorem isFirstStop_not_auto (st : Stop) (h1 : isFirstStop st) : ¬ isAutoStop st := by
  intro h2
  rw [isFirstStop] at h1
  rw [isAutoStop, h1] at h2
  simp at h2

theorem isLastStop_not_auto (st : Stop) (h1 : isLastStop st) : ¬ isAutoStop st := by
  intro h2
  rw [isLastStop] at h1
  rw [isAutoStop, h1] at h2
  simp at h2

theorem isFirstStop_not_last (st : Stop) (h1 : isFirstStop st) : ¬ isLastStop st := by
  intro h2
  rw [isFirstStop] at h1
  rw [isLastStop, h1] at h2
  simp at h2

theorem mem_bucketFirst (h : Heap) (stops : List Nat) (a : Nat) :
    a ∈ bucketFirst h stops ↔ a ∈ stops ∧ isFirstStop (hget h a) := by
  simp [bucketFirst, List.mem_filter, isFirstStop]

theorem mem_bucketAuto (h : Heap) (stops : List Nat) (a : Nat) :
    a ∈ bucketAuto h stops ↔ a ∈ stops ∧ isAutoStop (hget h a) := by
  simp [bucketAuto, List.mem_filter, isAutoStop]

theorem mem_bucketLast (h : Heap) (stops : List Nat) (a : Nat) :
    a ∈ bucketLast h stops ↔ a ∈ stops ∧ isLastStop (hget h a) := by
  simp [bucketLast, List.mem_filter, isLastStop]

/-- Shape of an engine result: first-bucket copies, then optimized auto-stop
copies, then last-bucket copies, all freshly allocated, with contiguous
1-based sequence positions and contents copied from the listed buckets. -/
def ResultShape (h hOut : Heap) (firstB autoB lastB : List Nat) (r : RouteResult) : Prop :=
  ∃ F M L : List Nat,
    r.stops = F ++ M ++ L ∧
    F.length = firstB.length ∧
    L.length = lastB.length ∧
    (∀ i, i < F.length →
      hget hOut (F.getD i 0) =
        { hget h (firstB.getD i 0) with sequence_order := some (1 + i) }) ∧
    (∀ i, i < M.length → ∃ b ∈ autoB,
      hget hOut (M.getD i 0) =
        { hget h b with sequence_order := some (1 + F.length + i) }) ∧
    (∀ i, i < L.length →
      hget hOut (L.getD i 0) =
        { hget h (lastB.getD i 0) with
            sequence_order := some (1 + F.length + M.length + i) }) ∧
    (∀ a ∈ r.stops, h.length ≤ a ∧ a < hOut.length) ∧
    r.stops.Nodup

theorem optimize_routeH_shape (solver : List Coord → Nat → Nat → Option SolveResult)
    (oracle : Oracle) (cfg : OptimizationConfig) (stops : List Nat) (s e : Option Coord)
    (h : Heap) (hv : ∀ a ∈ stops, a < h.length) (r : RouteResult)
    (hr : (optimize_routeH solver oracle cfg stops s e h).1 = some r) :
    ResultShape h ((optimize_routeH solver oracle cfg stops s e h).2.1)
      (bucketFirst h stops) (bucketAuto h stops) (bucketLast h stops) r := by
  have hvF : ∀ x ∈ bucketFirst h stops, x < h.length :=
    fun x hx => hv x (List.mem_of_mem_filter hx)
  have hvA : ∀ x ∈ bucketAuto h stops, x < h.length :=
    fun x hx => hv x (List.mem_of_mem_filter hx)
  have hvL : ∀ x ∈ bucketLast h stops, x < h.length :=
    fun x hx => hv x (List.mem_of_mem_filter hx)
  set f := (bucketFirst h stops).length with hf
  set l := (bucketLast h stops).length with hl
  by_cases hA : bucketAuto h stops = []
  · rw [optimize_routeH_noauto solver oracle cfg stops s e h hA] at hr ⊢
    simp only at hr ⊢
    have hrs : r.stops = (copySeq h 1 (bucketFirst h stops ++ bucketLast h stops)).2.1 := by
      have := Option.some_inj.mp hr
      rw [← this]
    have haddrs := copySeq_addrs h 1 (bucketFirst h stops ++ bucketLast h stops)
    rw [List.length_append, ← hf, ← hl] at haddrs
    have hvFL : ∀ x ∈ bucketFirst h stops ++ bucketLast h stops, x < h.length := by
      intro x hx
      rcases List.mem_append.mp hx with h1 | h1
      · exact hvF x h1
      · exact hvL x h1
    refine ⟨List.range' h.length f, [], List.range' (h.length + f) l, ?_, by simp, by simp,
      ?_, ?_, ?_, ?_, ?_⟩
    · rw [hrs, haddrs, range'_split]
      simp
    · intro i hi
      simp only [List.length_range'] at hi
      rw [getD_range' _ _ _ _ hi,
        copySeq_content h 1 _ hvFL i (by rw [List.length_append]; omega),
        getD_append_lt _ _ _ _ (by omega)]
    · intro i hi
      simp at hi
    · intro i hi
      simp only [List.length_range'] at hi
      rw [getD_range' _ _ _ _ hi, show h.length + f + i = h.length + (f + i) by omega,
        copySeq_content h 1 _ hvFL (f + i) (by rw [List.length_append]; omega)]
      rw [hf, getD_append_add]
      rw [← hf]
      simp only [List.length_range', List.length_nil]
      congr 2
      omega
    · intro a ha
      rw [hrs, haddrs] at ha
      rw [range'_split] at ha
      have hsub : a ∈ List.range' h.length (f + l) := by
        rw [range'_split]
        exact ha
      have := List.mem_range'_1.mp hsub
      rw [copySeq_heap_length, List.length_append, ← hf, ← hl]
      omega
    · rw [hrs, haddrs]
      exact List.nodup_range' _ _
  · match hsol : solver (routeLocations h (bucketAuto h stops) s e) 0
      (endIndex h (bucketAuto h stops) s e) with
    | none =>
      rw [optimize_routeH_none solver oracle cfg stops s e h hA hsol] at hr
      simp at hr
    | some sol =>
      rw [optimize_routeH_some solver oracle cfg stops s e h sol hA hsol] at hr ⊢
      simp only at hr ⊢
      set ba := buildAuto (bucketAuto h stops) 0 e (endIndex h (bucketAuto h stops) s e)
        (if s.isSome then 1 else 0) h sol.route with hba
      set fc := copySeq ba.1 1 (bucketFirst h stops) with hfc
      set ms := setSeqRun fc.1 fc.2.2 ba.2 with hms
      set lc := copySeq ms.1 ms.2 (bucketLast h stops) with hlc
      set m := ba.2.length with hm
      have hrs : r.stops = fc.2.1 ++ ba.2 ++ lc.2.1 := by
        have := Option.some_inj.mp hr
        rw [← this]
      have hbaLen : ba.1.length = h.length + m := by
        rw [hba, hm]
        exact buildAuto_heap_length _ _ _ _ _ _ _
      have hbaAddrs : ba.2 = List.range' h.length m := by
        rw [hba, hm]
        exact buildAuto_addrs _ _ _ _ _ _ _
      have hfcLen : fc.1.length = h.length + m + f := by
        rw [hfc, copySeq_heap_length, hbaLen, hf]
      have hfcAddrs : fc.2.1 = List.range' (h.length + m) f := by
        rw [hfc, copySeq_addrs, hbaLen, hf]
      have hfcNext : fc.2.2 = 1 + f := by
        rw [hfc, copySeq_next, hf]
      have hflen : fc.2.1.length = f := by
        rw [hfcAddrs]
        simp
      have hmsLen : ms.1.length = h.length + m + f := by
        rw [hms, setSeqRun_length, hfcLen]
      have hmsNext : ms.2 = 1 + f + m := by
        rw [hms, setSeqRun_next, hfcNext, hm]
      have hlcLen : lc.1.length = h.length + m + f + l := by
        rw [hlc, copySeq_heap_length, hmsLen, hl]
      have hlcAddrs : lc.2.1 = List.range' (h.length + m + f) l := by
        rw [hlc, copySeq_addrs, hmsLen, hl]
      have hvF1 : ∀ x ∈ bucketFirst h stops, x < ba.1.length := by
        intro x hx
        rw [hbaLen]
        exact Nat.lt_of_lt_of_le (hvF x hx) (by omega)
      have hvL2 : ∀ x ∈ bucketLast h stops, x < ms.1.length := by
        intro x hx
        rw [hmsLen]
        exact Nat.lt_of_lt_of_le (hvL x hx) (by omega)
      have hbaMemLt : ∀ x ∈ ba.2, h.length ≤ x ∧ x < h.length + m := by
        intro x hx
        rw [hbaAddrs] at hx
        exact List.mem_range'_1.mp hx
      refine ⟨fc.2.1, ba.2, lc.2.1, hrs, by rw [hflen, hf], by rw [hlcAddrs, hl]; simp,
        ?_, ?_, ?_, ?_, ?_⟩
      · -- first-bucket copies
        intro i hi
        rw [hflen] at hi
        have haddr : fc.2.1.getD i 0 = h.length + m + i := by
          rw [hfcAddrs, getD_range' _ _ _ _ hi]
        have hnotmem : fc.2.1.getD i 0 ∉ ba.2 := by
          rw [haddr]
          intro hmem
          have := hbaMemLt _ hmem
          omega
        have hstep1 : hget lc.1 (fc.2.1.getD i 0) = hget ms.1 (fc.2.1.getD i 0) := by
          rw [hlc]
          apply copySeq_old
          rw [hmsLen, haddr]
          omega
        have hstep2 : hget ms.1 (fc.2.1.getD i 0) = hget fc.1 (fc.2.1.getD i 0) := by
          rw [hms]
          exact setSeqRun_not_mem _ _ _ _ hnotmem
        have hstep3 : hget fc.1 (fc.2.1.getD i 0) =
            { hget ba.1 ((bucketFirst h stops).getD i 0) with sequence_order := some (1 + i) } := by
          rw [haddr, ← hbaLen, hfc]
          exact copySeq_content ba.1 1 (bucketFirst h stops) hvF1 i (by rw [← hf]; omega)
        have hstep4 : hget ba.1 ((bucketFirst h stops).getD i 0) =
            hget h ((bucketFirst h stops).getD i 0) := by
          rw [hba]
          apply buildAuto_old
          exact hvF _ (getD_mem_of_lt _ _ (by rw [← hf]; omega))
        rw [hstep1, hstep2, hstep3, hstep4]
      · -- optimized auto copies
        intro i hi
        have hmemi : ba.2.getD i 0 ∈ ba.2 := getD_mem_of_lt _ _ hi
        have hlt2 : ba.2.getD i 0 < h.length + m := (hbaMemLt _ hmemi).2
        have hnd : ba.2.Nodup := by
          rw [hbaAddrs]
          exact List.nodup_range' _ _
        have hvba : ∀ x ∈ ba.2, x < fc.1.length := by
          intro x hx
          rw [hfcLen]
          have := hbaMemLt _ hx
          omega
        obtain ⟨b, hbmem, hbeq⟩ := buildAuto_content (bucketAuto h stops) 0 e
          (endIndex h (bucketAuto h stops) s e) (if s.isSome then 1 else 0) h sol.route
          hvA (ba.2.getD i 0) (by rw [← hba]; exact hmemi)
        rw [← hba] at hbeq
        refine ⟨b, hbmem, ?_⟩
        have hstep1 : hget lc.1 (ba.2.getD i 0) = hget ms.1 (ba.2.getD i 0) := by
          rw [hlc]
          apply copySeq_old
          rw [hmsLen]
          omega
        have hstep2 : hget ms.1 (ba.2.getD i 0) =
            { hget fc.1 (ba.2.getD i 0) with sequence_order := some (fc.2.2 + i) } := by
          rw [hms]
          exact setSeqRun_content fc.1 fc.2.2 ba.2 hnd hvba i hi
        have hstep3 : hget fc.1 (ba.2.getD i 0) = hget ba.1 (ba.2.getD i 0) := by
          rw [hfc]
          apply copySeq_old
          rw [hbaLen]
          omega
        rw [hstep1, hstep2, hstep3, hbeq, hfcNext, hflen]
      · -- last-bucket copies
        intro i hi
        rw [hlcAddrs] at hi
        simp only [List.length_range'] at hi
        have haddr : lc.2.1.getD i 0 = h.length + m + f + i := by
          rw [hlcAddrs, getD_range' _ _ _ _ hi]
        have hlastlt : (bucketLast h stops).getD i 0 < h.length :=
          hvL _ (getD_mem_of_lt _ _ (by rw [← hl]; omega))
        have hnotmem : (bucketLast h stops).getD i 0 ∉ ba.2 := by
          intro hmem
          have := hbaMemLt _ hmem
          omega
        have hstep1 : hget lc.1 (lc.2.1.getD i 0) =
            { hget ms.1 ((bucketLast h stops).getD i 0) with
                sequence_order := some (ms.2 + i) } := by
          rw [haddr, ← hmsLen, hlc]
          exact copySeq_content ms.1 ms.2 (bucketLast h stops) hvL2 i (by rw [← hl]; omega)
        have hstep2 : hget ms.1 ((bucketLast h stops).getD i 0) =
            hget fc.1 ((bucketLast h stops).getD i 0) := by
          rw [hms]
          exact setSeqRun_not_mem _ _ _ _ hnotmem
        have hstep3 : hget fc.1 ((bucketLast h stops).getD i 0) =
            hget ba.1 ((bucketLast h stops).getD i 0) := by
          rw [hfc]
          apply copySeq_old
          rw [hbaLen]
          omega
        have hstep4 : hget ba.1 ((bucketLast h stops).getD i 0) =
            hget h ((bucketLast h stops).getD i 0) := by
          rw [hba]
          exact buildAuto_old _ _ _ _ _ _ _ _ hlastlt
        rw [hstep1, hstep2, hstep3, hstep4, hmsNext, hflen]
      · -- freshness bounds
        intro a ha
        rw [hrs] at ha
        rw [hlcLen]
        rcases List.mem_append.mp ha with h1 | h1
        · rcases List.mem_append.mp h1 with h2 | h2
          · rw [hfcAddrs] at h2
            have := List.mem_range'_1.mp h2
            omega
          · have := hbaMemLt _ h2
            omega
        · rw [hlcAddrs] at h1
          have := List.mem_range'_1.mp h1
          omega
      · -- nodup
        rw [hrs, hfcAddrs, hbaAddrs, hlcAddrs]
        have hdisj1 : ∀ a ∈ List.range' (h.length + m) f, a ∉ List.range' h.length m := by
          intro a ha hmem
          have h1 := List.mem_range'_1.mp ha
          have h2 := List.mem_range'_1.mp hmem
          omega
        have hdisj2 : ∀ a ∈ (List.range' (h.length + m) f ++ List.range' h.length m),
            a ∉ List.range' (h.length + m + f) l := by
          intro a ha hmem
          have h2 := List.mem_range'_1.mp hmem
          rcases List.mem_append.mp ha with h1 | h1
          · have := List.mem_range'_1.mp h1
            omega
          · have := List.mem_range'_1.mp h1
            omega
        exact List.Nodup.append
          (List.Nodup.append (List.nodup_range' _ _) (List.nodup_range' _ _) hdisj1)
          (List.nodup_range' _ _) hdisj2

/-! ### Clustering orchestrator lemmas -/

theorem seq_update_update (st : Stop) (q p : Option Nat) :
    ({ { st with sequence_order := q } with sequence_order := p } : Stop) =
      { st with sequence_order := p } := rfl

theorem mem_getD_nat (l : List Nat) (x : Nat) (hx : x ∈ l) :
    ∃ i, i < l.length ∧ l.getD i 0 = x := by
  obtain ⟨i, hi, heq⟩ := List.mem_iff_getElem.mp hx
  refine ⟨i, hi, ?_⟩
  simp only [List.getD_eq_getElem?_getD]
  rw [List.getElem?_eq_getElem hi]
  simpa using heq

/-- Delegation equation: with no auto stops, clustering disabled, or a small
auto bucket, `optimize_route_with_clustering` just calls `optimize_route`. -/
theorem optimize_route_with_clusteringH_delegates {β : Type} [LinearOrderedField β]
    (solver : List Coord → Nat → Nat → Option SolveResult) (oracle : Oracle)
    (d : Coord → Coord → β) (labels : Nat → Nat) (cfg : OptimizationConfig)
    (stops : List Nat) (s e : Option Coord) (h : Heap)
    (hcond : bucketAuto h stops = [] ∨ cfg.enable_clustering = false ∨
      (bucketAuto h stops).length ≤ cfg.max_stops_per_cluster) :
    optimize_route_with_clusteringH solver oracle d labels cfg stops s e h =
      optimize_routeH solver oracle cfg stops s e h := by
  simp only [optimize_route_with_clusteringH, if_pos hcond]

/-- Clustered-path equation of `optimize_route_with_clustering`. -/
theorem optimize_route_with_clusteringH_clustered {β : Type} [LinearOrderedField β]
    (solver : List Coord → Nat → Nat → Option SolveResult) (oracle : Oracle)
    (d : Coord → Coord → β) (labels : Nat → Nat) (cfg : OptimizationConfig)
    (stops : List Nat) (s e : Option Coord) (h : Heap)
    (hcond : ¬ (bucketAuto h stops = [] ∨ cfg.enable_clustering = false ∨
      (bucketAuto h stops).length ≤ cfg.max_stops_per_cluster)) :
    optimize_route_with_clusteringH solver oracle d labels cfg stops s e h =
      (let clusters := cluster_stops (bucketAuto h stops)
         { max_stops_per_cluster := cfg.max_stops_per_cluster } labels
       let corder := optimize_cluster_order d h clusters s e
       let ordered := corder.map (fun i => clusters.getD i [])
       let acc := clusterLoop solver oracle cfg e ordered s h
       let fc := copySeq acc.heap 1 (bucketFirst h stops)
       let ms := setSeqRun fc.1 fc.2.2 acc.mids
       let lc := copySeq ms.1 ms.2 (bucketLast h stops)
       (some { stops := fc.2.1 ++ acc.mids ++ lc.2.1,
               total_distance_meters := acc.dist,
               total_duration_seconds := acc.dur,
               clusters_used := some clusters.length }, lc.1, acc.trace)) := by
  simp only [optimize_route_with_clusteringH, if_neg hcond]

theorem clusterLoop_cons_none (solver : List Coord → Nat → Nat → Option SolveResult)
    (oracle : Oracle) (cfg : OptimizationConfig) (e : Option Coord)
    (c : List Nat) (rest : List (List Nat)) (cur : Option Coord) (h : Heap)
    (hres : (optimize_routeH solver oracle cfg c cur (clusterEnd e h rest) h).1 = none) :
    clusterLoop solver oracle cfg e (c :: rest) cur h =
      clusterLoop solver oracle cfg e rest
        (some (get_cluster_centroid
          (optimize_routeH solver oracle cfg c cur (clusterEnd e h rest) h).2.1 c))
        (optimize_routeH solver oracle cfg c cur (clusterEnd e h rest) h).2.1 := by
  simp only [clusterLoop, hres]

theorem clusterLoop_cons_some (solver : List Coord → Nat → Nat → Option SolveResult)
    (oracle : Oracle) (cfg : OptimizationConfig) (e : Option Coord)
    (c : List Nat) (rest : List (List Nat)) (cur : Option Coord) (h : Heap)
    (res : RouteResult)
    (hres : (optimize_routeH solver oracle cfg c cur (clusterEnd e h rest) h).1 = some res) :
    clusterLoop solver oracle cfg e (c :: rest) cur h =
      ⟨res.stops ++ (clusterLoop solver oracle cfg e rest
          (some (get_cluster_centroid
            (optimize_routeH solver oracle cfg c cur (clusterEnd e h rest) h).2.1 c))
          (optimize_routeH solver oracle cfg c cur (clusterEnd e h rest) h).2.1).mids,
       res.total_distance_meters + (clusterLoop solver oracle cfg e rest
          (some (get_cluster_centroid
            (optimize_routeH solver oracle cfg c cur (clusterEnd e h rest) h).2.1 c))
          (optimize_routeH solver oracle cfg c cur (clusterEnd e h rest) h).2.1).dist,
       res.total_duration_seconds + (clusterLoop solver oracle cfg e rest
          (some (get_cluster_centroid
            (optimize_routeH solver oracle cfg c cur (clusterEnd e h rest) h).2.1 c))
          (optimize_routeH solver oracle cfg c cur (clusterEnd e h rest) h).2.1).dur,
       (clusterLoop solver oracle cfg e rest
          (some (get_cluster_centroid
            (optimize_routeH solver oracle cfg c cur (clusterEnd e h rest) h).2.1 c))
          (optimize_routeH solver oracle cfg c cur (clusterEnd e h rest) h).2.1).heap,
       (optimize_routeH solver oracle cfg c cur (clusterEnd e h rest) h).2.2 ++
         (clusterLoop solver oracle cfg e rest
          (some (get_cluster_centroid
            (optimize_routeH solver oracle cfg c cur (clusterEnd e h rest) h).2.1 c))
          (optimize_routeH solver oracle cfg c cur (clusterEnd e h rest) h).2.1).trace⟩ := by
  simp only [clusterLoop, hres]

/-- Invariant of the per-cluster loop: the heap only grows, pre-existing dicts
are untouched, and the accumulated optimized stops are fresh, distinct copies
of pool members. -/
theorem clusterLoop_invariant (solver : List Coord → Nat → Nat → Option SolveResult)
    (oracle : Oracle) (cfg : OptimizationConfig) (e : Option Coord) (pool : List Nat) :
    ∀ (cls : List (List Nat)) (cur : Option Coord) (h : Heap),
      (∀ cl ∈ cls, ∀ x ∈ cl, x ∈ pool) →
      (∀ x ∈ pool, x < h.length) →
      h.length ≤ (clusterLoop solver oracle cfg e cls cur h).heap.length ∧
      (∀ b, b < h.length →
        hget (clusterLoop solver oracle cfg e cls cur h).heap b = hget h b) ∧
      (∀ x ∈ (clusterLoop solver oracle cfg e cls cur h).mids,
        h.length ≤ x ∧ x < (clusterLoop solver oracle cfg e cls cur h).heap.length) ∧
      (clusterLoop solver oracle cfg e cls cur h).mids.Nodup ∧
      (∀ x ∈ (clusterLoop solver oracle cfg e cls cur h).mids, ∃ b ∈ pool, ∃ q,
        hget (clusterLoop solver oracle cfg e cls cur h).heap x =
          { hget h b with sequence_order := some q }) := by
  intro cls
  induction cls with
  | nil =>
    intro cur h _ _
    refine ⟨le_refl _, fun b _ => rfl, ?_, ?_, ?_⟩
    · intro x hx
      simp [clusterLoop] at hx
    · simp [clusterLoop]
    · intro x hx
      simp [clusterLoop] at hx
  | cons c rest ih =>
    intro cur h hcl hpv
    have hcv : ∀ a ∈ c, a < h.length :=
      fun a ha => hpv a (hcl c (List.mem_cons_self _ _) a ha)
    have hrle : h.length ≤
        (optimize_routeH solver oracle cfg c cur (clusterEnd e h rest) h).2.1.length :=
      optimize_routeH_heap_le _ _ _ _ _ _ _
    have hrpres : ∀ b, b < h.length →
        hget (optimize_routeH solver oracle cfg c cur (clusterEnd e h rest) h).2.1 b =
          hget h b :=
      fun b hb => optimize_routeH_preserves _ _ _ _ _ _ _ b hb
    obtain ⟨ih_le, ih_pres, ih_bounds, ih_nd, ih_content⟩ :=
      ih (some (get_cluster_centroid
          (optimize_routeH solver oracle cfg c cur (clusterEnd e h rest) h).2.1 c))
        (optimize_routeH solver oracle cfg c cur (clusterEnd e h rest) h).2.1
        (fun cl hclm x hx => hcl cl (List.mem_cons_of_mem _ hclm) x hx)
        (fun x hx => Nat.lt_of_lt_of_le (hpv x hx) hrle)
    match hres : (optimize_routeH solver oracle cfg c cur (clusterEnd e h rest) h).1 with
    | none =>
      rw [clusterLoop_cons_none solver oracle cfg e c rest cur h hres]
      refine ⟨le_trans hrle ih_le, ?_, ?_, ih_nd, ?_⟩
      · intro b hb
        rw [ih_pres b (Nat.lt_of_lt_of_le hb hrle), hrpres b hb]
      · intro x hx
        have := ih_bounds x hx
        omega
      · intro x hx
        obtain ⟨b, hbmem, q, heq⟩ := ih_content x hx
        exact ⟨b, hbmem, q, by rw [heq, hrpres b (hpv b hbmem)]⟩
    | some res =>
      rw [clusterLoop_cons_some solver oracle cfg e c rest cur h res hres]
      obtain ⟨F, M, L, hsplit, _, _, hFc, hMc, hLc, hbounds, hnd⟩ :=
        optimize_routeH_shape solver oracle cfg c cur (clusterEnd e h rest) h hcv res hres
      have hresStops : ∀ x ∈ res.stops, ∃ b ∈ pool, ∃ q,
          hget (optimize_routeH solver oracle cfg c cur (clusterEnd e h rest) h).2.1 x =
            { hget h b with sequence_order := some q } := by
        intro x hx
        rw [hsplit] at hx
        rcases List.mem_append.mp hx with hx1 | hxL
        · rcases List.mem_append.mp hx1 with hxF | hxM
          · obtain ⟨i, hi, hieq⟩ := mem_getD_nat F x hxF
            have hcc := hFc i hi
            rw [hieq] at hcc
            refine ⟨(bucketFirst h c).getD i 0, ?_, 1 + i, hcc⟩
            have hmemb : (bucketFirst h c).getD i 0 ∈ bucketFirst h c := by
              apply getD_mem_of_lt
              omega
            exact hcl c (List.mem_cons_self _ _) _ (List.mem_of_mem_filter hmemb)
          · obtain ⟨i, hi, hieq⟩ := mem_getD_nat M x hxM
            obtain ⟨b, hbmem, hbeq⟩ := hMc i hi
            rw [hieq] at hbeq
            exact ⟨b, hcl c (List.mem_cons_self _ _) _ (List.mem_of_mem_filter hbmem),
              _, hbeq⟩
        · obtain ⟨i, hi, hieq⟩ := mem_getD_nat L x hxL
          have hcc := hLc i hi
          rw [hieq] at hcc
          refine ⟨(bucketLast h c).getD i 0, ?_, _, hcc⟩
          have hmemb : (bucketLast h c).getD i 0 ∈ bucketLast h c := by
            apply getD_mem_of_lt
            omega
          exact hcl c (List.mem_cons_self _ _) _ (List.mem_of_mem_filter hmemb)
      refine ⟨le_trans hrle ih_le, ?_, ?_, ?_, ?_⟩
      · intro b hb
        simp only
        rw [ih_pres b (Nat.lt_of_lt_of_le hb hrle), hrpres b hb]
      · intro x hx
        simp only at hx
        rcases List.mem_append.mp hx with hx1 | hx2
        · have := hbounds x hx1
          exact ⟨this.1, Nat.lt_of_lt_of_le this.2 ih_le⟩
        · have := ih_bounds x hx2
          exact ⟨le_trans hrle this.1, this.2⟩
      · simp only
        refine List.Nodup.append hnd ih_nd ?_
        intro x hx1 hx2
        have h1 := hbounds x hx1
        have h2 := ih_bounds x hx2
        omega
      · intro x hx
        simp only at hx ⊢
        rcases List.mem_append.mp hx with hx1 | hx2
        · obtain ⟨b, hbmem, q, heq⟩ := hresStops x hx1
          refine ⟨b, hbmem, q, ?_⟩
          rw [ih_pres x (hbounds x hx1).2, heq]
        · obtain ⟨b, hbmem, q, heq⟩ := ih_content x hx2
          refine ⟨b, hbmem, q, ?_⟩
          rw [heq, hrpres b (hpv b hbmem)]

theorem getD_mem_of_lt_gen {α : Type} (l : List α) (dflt : α) (i : Nat) (hi : i < l.length) :
    l.getD i dflt ∈ l := by
  simp only [List.getD_eq_getElem?_getD]
  rw [List.getElem?_eq_getElem hi]
  exact List.getElem_mem hi

theorem ordered_clusters_pool {β : Type} [LinearOrderedField β] (d : Coord → Coord → β)
    (h : Heap) (autoB : List Nat) (cc : ClusterConfig) (labels : Nat → Nat)
    (s e : Option Coord) :
    ∀ cl ∈ (optimize_cluster_order d h (cluster_stops autoB cc labels) s e).map
        (fun i => (cluster_stops autoB cc labels).getD i []),
      ∀ x ∈ cl, x ∈ autoB := by
  intro cl hclm x hx
  obtain ⟨i, _, rfl⟩ := List.mem_map.mp hclm
  by_cases hi : i < (cluster_stops autoB cc labels).length
  · exact cluster_stops_mem autoB cc labels _
      (getD_mem_of_lt_gen _ _ _ hi) x hx
  · rw [List.getD_eq_getElem?_getD, List.getElem?_eq_none (by omega)] at hx
    simp at hx

/-- `optimize_route_with_clustering` never changes a pre-existing dict. -/
theorem optimize_route_with_clusteringH_preserves {β : Type} [LinearOrderedField β]
    (solver : List Coord → Nat → Nat → Option SolveResult) (oracle : Oracle)
    (d : Coord → Coord → β) (labels : Nat → Nat) (cfg : OptimizationConfig)
    (stops : List Nat) (s e : Option Coord) (h : Heap)
    (hv : ∀ a ∈ stops, a < h.length) (b : Nat) (hb : b < h.length) :
    hget ((optimize_route_with_clusteringH solver oracle d labels cfg stops s e h).2.1) b =
      hget h b := by
  by_cases hcond : bucketAuto h stops = [] ∨ cfg.enable_clustering = false ∨
      (bucketAuto h stops).length ≤ cfg.max_stops_per_cluster
  · rw [optimize_route_with_clusteringH_delegates solver oracle d labels cfg stops s e h hcond]
    exact optimize_routeH_preserves solver oracle cfg stops s e h b hb
  · rw [optimize_route_with_clusteringH_clustered solver oracle d labels cfg stops s e h hcond]
    simp only
    obtain ⟨acc_le, acc_pres, acc_bounds, _, _⟩ :=
      clusterLoop_invariant solver oracle cfg e (bucketAuto h stops)
        ((optimize_cluster_order d h (cluster_stops (bucketAuto h stops)
            { max_stops_per_cluster := cfg.max_stops_per_cluster } labels) s e).map
          (fun i => (cluster_stops (bucketAuto h stops)
            { max_stops_per_cluster := cfg.max_stops_per_cluster } labels).getD i []))
        s h (ordered_clusters_pool d h (bucketAuto h stops) _ labels s e)
        (fun x hx => hv x (List.mem_of_mem_filter hx))
    set acc := clusterLoop solver oracle cfg e
      ((optimize_cluster_order d h (cluster_stops (bucketAuto h stops)
          { max_stops_per_cluster := cfg.max_stops_per_cluster } labels) s e).map
        (fun i => (cluster_stops (bucketAuto h stops)
          { max_stops_per_cluster := cfg.max_stops_per_cluster } labels).getD i []))
      s h with hacc
    have hb1 : b < acc.heap.length := Nat.lt_of_lt_of_le hb acc_le
    have hnotmem : b ∉ acc.mids := by
      intro hmem
      have := acc_bounds b hmem
      omega
    have hb2 : b < (copySeq acc.heap 1 (bucketFirst h stops)).1.length := by
      rw [copySeq_heap_length]
      omega
    rw [copySeq_old _ _ _ _ (by rw [setSeqRun_length]; exact hb2),
      setSeqRun_not_mem _ _ _ _ hnotmem, copySeq_old _ _ _ _ hb1, acc_pres b hb]

/-- Shape of any non-null `optimize_route_with_clustering` result. -/
theorem optimize_route_with_clusteringH_shape {β : Type} [LinearOrderedField β]
    (solver : List Coord → Nat → Nat → Option SolveResult) (oracle : Oracle)
    (d : Coord → Coord → β) (labels : Nat → Nat) (cfg : OptimizationConfig)
    (stops : List Nat) (s e : Option Coord) (h : Heap)
    (hv : ∀ a ∈ stops, a < h.length) (r : RouteResult)
    (hr : (optimize_route_with_clusteringH solver oracle d labels cfg stops s e h).1 = some r) :
    ResultShape h ((optimize_route_with_clusteringH solver oracle d labels cfg stops s e h).2.1)
      (bucketFirst h stops) (bucketAuto h stops) (bucketLast h stops) r := by
  by_cases hcond : bucketAuto h stops = [] ∨ cfg.enable_clustering = false ∨
      (bucketAuto h stops).length ≤ cfg.max_stops_per_cluster
  · rw [optimize_route_with_clusteringH_delegates solver oracle d labels cfg stops s e h hcond] at hr ⊢
    exact optimize_routeH_shape solver oracle cfg stops s e h hv r hr
  · rw [optimize_route_with_clusteringH_clustered solver oracle d labels cfg stops s e h hcond] at hr ⊢
    simp only at hr ⊢
    have hvF : ∀ x ∈ bucketFirst h stops, x < h.length :=
      fun x hx => hv x (List.mem_of_mem_filter hx)
    have hvL : ∀ x ∈ bucketLast h stops, x < h.length :=
      fun x hx => hv x (List.mem_of_mem_filter hx)
    obtain ⟨acc_le, acc_pres, acc_bounds, acc_nd, acc_content⟩ :=
      clusterLoop_invariant solver oracle cfg e (bucketAuto h stops)
        ((optimize_cluster_order d h (cluster_stops (bucketAuto h stops)
            { max_stops_per_cluster := cfg.max_stops_per_cluster } labels) s e).map
          (fun i => (cluster_stops (bucketAuto h stops)
            { max_stops_per_cluster := cfg.max_stops_per_cluster } labels).getD i []))
        s h (ordered_clusters_pool d h (bucketAuto h stops) _ labels s e)
        (fun x hx => hv x (List.mem_of_mem_filter hx))
    set acc := clusterLoop solver oracle cfg e
      ((optimize_cluster_order d h (cluster_stops (bucketAuto h stops)
          { max_stops_per_cluster := cfg.max_stops_per_cluster } labels) s e).map
        (fun i => (cluster_stops (bucketAuto h stops)
          { max_stops_per_cluster := cfg.max_stops_per_cluster } labels).getD i []))
      s h with hacc
    set f := (bucketFirst h stops).length with hf
    set l := (bucketLast h stops).length with hl
    set m := acc.mids.length with hm
    set fc := copySeq acc.heap 1 (bucketFirst h stops) with hfc
    set ms := setSeqRun fc.1 fc.2.2 acc.mids with hms
    set lc := copySeq ms.1 ms.2 (bucketLast h stops) with hlc
    have hrs : r.stops = fc.2.1 ++ acc.mids ++ lc.2.1 := by
      have := Option.some_inj.mp hr
      rw [← this]
    have hfcLen : fc.1.length = acc.heap.length + f := by
      rw [hfc, copySeq_heap_length, hf]
    have hfcAddrs : fc.2.1 = List.range' acc.heap.length f := by
      rw [hfc, copySeq_addrs, hf]
    have hfcNext : fc.2.2 = 1 + f := by
      rw [hfc, copySeq_next, hf]
    have hflen : fc.2.1.length = f := by
      rw [hfcAddrs]
      simp
    have hmsLen : ms.1.length = acc.heap.length + f := by
      rw [hms, setSeqRun_length, hfcLen]
    have hmsNext : ms.2 = 1 + f + m := by
      rw [hms, setSeqRun_next, hfcNext, hm]
    have hlcLen : lc.1.length = acc.heap.length + f + l := by
      rw [hlc, copySeq_heap_length, hmsLen, hl]
    have hlcAddrs : lc.2.1 = List.range' (acc.heap.length + f) l := by
      rw [hlc, copySeq_addrs, hmsLen, hl]
    have hvF1 : ∀ x ∈ bucketFirst h stops, x < acc.heap.length :=
      fun x hx => Nat.lt_of_lt_of_le (hvF x hx) acc_le
    have hvL2 : ∀ x ∈ bucketLast h stops, x < ms.1.length := by
      intro x hx
      rw [hmsLen]
      exact Nat.lt_of_lt_of_le (hvL x hx) (by omega)
    refine ⟨fc.2.1, acc.mids, lc.2.1, hrs, by rw [hflen, hf], by rw [hlcAddrs, hl]; simp,
      ?_, ?_, ?_, ?_, ?_⟩
    · -- first-bucket copies
      intro i hi
      rw [hflen] at hi
      have haddr : fc.2.1.getD i 0 = acc.heap.length + i := by
        rw [hfcAddrs, getD_range' _ _ _ _ hi]
      have hnotmem : fc.2.1.getD i 0 ∉ acc.mids := by
        rw [haddr]
        intro hmem
        have := acc_bounds _ hmem
        omega
      have hstep1 : hget lc.1 (fc.2.1.getD i 0) = hget ms.1 (fc.2.1.getD i 0) := by
        rw [hlc]
        apply copySeq_old
        rw [hmsLen, haddr]
        omega
      have hstep2 : hget ms.1 (fc.2.1.getD i 0) = hget fc.1 (fc.2.1.getD i 0) := by
        rw [hms]
        exact setSeqRun_not_mem _ _ _ _ hnotmem
      have hstep3 : hget fc.1 (fc.2.1.getD i 0) =
          { hget acc.heap ((bucketFirst h stops).getD i 0) with
              sequence_order := some (1 + i) } := by
        rw [haddr, hfc]
        exact copySeq_content acc.heap 1 (bucketFirst h stops) hvF1 i (by rw [← hf]; omega)
      have hstep4 : hget acc.heap ((bucketFirst h stops).getD i 0) =
          hget h ((bucketFirst h stops).getD i 0) :=
        acc_pres _ (hvF _ (getD_mem_of_lt _ _ (by rw [← hf]; omega)))
      rw [hstep1, hstep2, hstep3, hstep4]
    · -- optimized auto copies
      intro i hi
      have hmemi : acc.mids.getD i 0 ∈ acc.mids := getD_mem_of_lt _ _ hi
      have hbmi := acc_bounds _ hmemi
      obtain ⟨b, hbmem, q, hbeq⟩ := acc_content _ hmemi
      refine ⟨b, hbmem, ?_⟩
      have hnd : acc.mids.Nodup := acc_nd
      have hvba : ∀ x ∈ acc.mids, x < fc.1.length := by
        intro x hx
        rw [hfcLen]
        have := acc_bounds _ hx
        omega
      have hstep1 : hget lc.1 (acc.mids.getD i 0) = hget ms.1 (acc.mids.getD i 0) := by
        rw [hlc]
        apply copySeq_old
        rw [hmsLen]
        omega
      have hstep2 : hget ms.1 (acc.mids.getD i 0) =
          { hget fc.1 (acc.mids.getD i 0) with sequence_order := some (fc.2.2 + i) } := by
        rw [hms]
        exact setSeqRun_content fc.1 fc.2.2 acc.mids hnd hvba i hi
      have hstep3 : hget fc.1 (acc.mids.getD i 0) = hget acc.heap (acc.mids.getD i 0) := by
        rw [hfc]
        apply copySeq_old
        omega
      rw [hstep1, hstep2, hstep3, hbeq, hfcNext, hflen, seq_update_update]
    · -- last-bucket copies
      intro i hi
      rw [hlcAddrs] at hi
      simp only [List.length_range'] at hi
      have haddr : lc.2.1.getD i 0 = acc.heap.length + f + i := by
        rw [hlcAddrs, getD_range' _ _ _ _ hi]
      have hlastlt : (bucketLast h stops).getD i 0 < h.length :=
        hvL _ (getD_mem_of_lt _ _ (by rw [← hl]; omega))
      have hnotmem : (bucketLast h stops).getD i 0 ∉ acc.mids := by
        intro hmem
        have := acc_bounds _ hmem
        omega
      have hstep1 : hget lc.1 (lc.2.1.getD i 0) =
          { hget ms.1 ((bucketLast h stops).getD i 0) with
              sequence_order := some (ms.2 + i) } := by
        rw [haddr, ← hmsLen, hlc]
        exact copySeq_content ms.1 ms.2 (bucketLast h stops) hvL2 i (by rw [← hl]; omega)
      have hstep2 : hget ms.1 ((bucketLast h stops).getD i 0) =
          hget fc.1 ((bucketLast h stops).getD i 0) := by
        rw [hms]
        exact setSeqRun_not_mem _ _ _ _ hnotmem
      have hstep3 : hget fc.1 ((bucketLast h stops).getD i 0) =
          hget acc.heap ((bucketLast h stops).getD i 0) := by
        rw [hfc]
        apply copySeq_old
        exact Nat.lt_of_lt_of_le hlastlt acc_le
      have hstep4 : hget acc.heap ((bucketLast h stops).getD i 0) =
          hget h ((bucketLast h stops).getD i 0) :=
        acc_pres _ hlastlt
      rw [hstep1, hstep2, hstep3, hstep4, hmsNext, hflen, hm]
    · -- freshness bounds
      intro a ha
      rw [hrs] at ha
      rw [hlcLen]
      rcases List.mem_append.mp ha with h1 | h1
      · rcases List.mem_append.mp h1 with h2 | h2
        · rw [hfcAddrs] at h2
          have h3 := List.mem_range'_1.mp h2
          have := acc_le
          omega
        · have := acc_bounds _ h2
          omega
      · rw [hlcAddrs] at h1
        have h3 := List.mem_range'_1.mp h1
        have := acc_le
        omega
    · -- nodup
      rw [hrs]
      have hFnd : fc.2.1.Nodup := by
        rw [hfcAddrs]
        exact List.nodup_range' _ _
      have hLnd : lc.2.1.Nodup := by
        rw [hlcAddrs]
        exact List.nodup_range' _ _
      have hdisj1 : ∀ a ∈ fc.2.1, a ∉ acc.mids := by
        intro a ha hmem
        rw [hfcAddrs] at ha
        have h1 := List.mem_range'_1.mp ha
        have h2 := acc_bounds _ hmem
        omega
      have hdisj2 : ∀ a ∈ (fc.2.1 ++ acc.mids), a ∉ lc.2.1 := by
        intro a ha hmem
        rw [hlcAddrs] at hmem
        have h2 := List.mem_range'_1.mp hmem
        rcases List.mem_append.mp ha with h1 | h1
        · rw [hfcAddrs] at h1
          have := List.mem_range'_1.mp h1
          omega
        · have := acc_bounds _ h1
          omega
      exact List.Nodup.append (List.Nodup.append hFnd acc_nd hdisj1) hLnd hdisj2

/-! ### Refiner-call trace lemmas -/

theorem optimize_routeH_isSome (solver : List Coord → Nat → Nat → Option SolveResult)
    (oracle : Oracle) (cfg : OptimizationConfig) (stops : List Nat) (s e : Option Coord)
    (h : Heap) (sol : SolveResult) (hA : bucketAuto h stops ≠ [])
    (hsol : solver (routeLocations h (bucketAuto h stops) s e) 0
      (endIndex h (bucketAuto h stops) s e) = some sol) :
    ∃ res, (optimize_routeH solver oracle cfg stops s e h).1 = some res := by
  rw [optimize_routeH_some solver oracle cfg stops s e h sol hA hsol]
  exact ⟨_, rfl⟩

/-- When the haversine-precompute flag is on and the solved route has more
than one node, `optimize_route` makes exactly one Route Refiner call, on its
own (cluster-local) route. -/
theorem optimize_routeH_trace_one (solver : List Coord → Nat → Nat → Option SolveResult)
    (oracle : Oracle) (cfg : OptimizationConfig) (stops : List Nat) (s e : Option Coord)
    (h : Heap) (sol : SolveResult) (hA : bucketAuto h stops ≠ [])
    (hsol : solver (routeLocations h (bucketAuto h stops) s e) 0
      (endIndex h (bucketAuto h stops) s e) = some sol)
    (hpre : cfg.use_haversine_precompute = true) (hlen : 1 < sol.route.length) :
    (optimize_routeH solver oracle cfg stops s e h).2.2 =
      [sol.route.map (fun i =>
        (routeLocations h (bucketAuto h stops) s e).getD i (0, 0))] := by
  rw [optimize_routeH_some solver oracle cfg stops s e h sol hA hsol]
  simp only
  rw [if_pos ⟨hpre, hlen⟩, refineH, if_neg (by omega)]

/-- With a solver that always succeeds with a non-trivial route and the
precompute flag on, the per-cluster loop makes exactly one refiner call per
nonempty all-auto cluster, and none afterwards. -/
theorem clusterLoop_trace (solver : List Coord → Nat → Nat → Option SolveResult)
    (oracle : Oracle) (cfg : OptimizationConfig) (e : Option Coord) (pool : List Nat)
    (hpre : cfg.use_haversine_precompute = true)
    (hsolver : ∀ locs a b, ∃ sol, solver locs a b = some sol ∧ 1 < sol.route.length) :
    ∀ (cls : List (List Nat)) (cur : Option Coord) (h : Heap),
      (∀ cl ∈ cls, cl ≠ []) →
      (∀ cl ∈ cls, ∀ x ∈ cl, x ∈ pool) →
      (∀ x ∈ pool, x < h.length) →
      (∀ x ∈ pool, isAutoStop (hget h x)) →
      (clusterLoop solver oracle cfg e cls cur h).trace.length = cls.length := by
  intro cls
  induction cls with
  | nil =>
    intro cur h _ _ _ _
    simp [clusterLoop]
  | cons c rest ih =>
    intro cur h hne hcl hpv hpa
    have hcne : c ≠ [] := hne c (List.mem_cons_self _ _)
    obtain ⟨x, hx⟩ := List.exists_mem_of_ne_nil c hcne
    have hcauto : bucketAuto h c ≠ [] := by
      apply List.ne_nil_of_mem (a := x)
      rw [mem_bucketAuto]
      exact ⟨hx, hpa x (hcl c (List.mem_cons_self _ _) x hx)⟩
    obtain ⟨sol, hsol, hlen⟩ := hsolver
      (routeLocations h (bucketAuto h c) cur (clusterEnd e h rest)) 0
      (endIndex h (bucketAuto h c) cur (clusterEnd e h rest))
    obtain ⟨res, hres⟩ :=
      optimize_routeH_isSome solver oracle cfg c cur (clusterEnd e h rest) h sol hcauto hsol
    rw [clusterLoop_cons_some solver oracle cfg e c rest cur h res hres]
    simp only [List.length_append]
    rw [optimize_routeH_trace_one solver oracle cfg c cur (clusterEnd e h rest) h sol
      hcauto hsol hpre hlen]
    have hrle := optimize_routeH_heap_le solver oracle cfg c cur (clusterEnd e h rest) h
    rw [ih (some (get_cluster_centroid
        (optimize_routeH solver oracle cfg c cur (clusterEnd e h rest) h).2.1 c))
      (optimize_routeH solver oracle cfg c cur (clusterEnd e h rest) h).2.1
      (fun cl hm => hne cl (List.mem_cons_of_mem _ hm))
      (fun cl hm y hy => hcl cl (List.mem_cons_of_mem _ hm) y hy)
      (fun y hy => Nat.lt_of_lt_of_le (hpv y hy) hrle)
      (fun y hy => by
        rw [optimize_routeH_preserves solver oracle cfg c cur (clusterEnd e h rest) h y
          (hpv y hy)]
        exact hpa y hy)]
    simp
    omega

/-! ### The haversine estimator over `ℝ` (`clustering_service.haversine_distance`) -/

/-- `math.radians`. -/
noncomputable def radians (x : ℝ) : ℝ := x * Real.pi / 180

/-- `math.atan2` (translated by quadrant; only the `0 < x` branch is exercised
by the meridian instances used below). -/
noncomputable def atan2 (y x : ℝ) : ℝ :=
  if 0 < x then Real.arctan (y / x)
  else if x < 0 ∧ 0 ≤ y then Real.arctan (y / x) + Real.pi
  else if x < 0 ∧ y < 0 then Real.arctan (y / x) - Real.pi
  else if x = 0 ∧ 0 < y then Real.pi / 2
  else if x = 0 ∧ y < 0 then -(Real.pi / 2)
  else 0

/-- `haversine_distance` of `clustering_service.py` on a spherical Earth of
radius 6,371,000 m. -/
noncomputable def haversine_distance (lat1 lon1 lat2 lon2 : ℝ) : ℝ :=
  let R : ℝ := 6371000
  let phi1 := radians lat1
  let phi2 := radians lat2
  let delta_phi := radians (lat2 - lat1)
  let delta_lambda := radians (lon2 - lon1)
  let a := Real.sin (delta_phi / 2) ^ 2 +
    Real.cos phi1 * Real.cos phi2 * Real.sin (delta_lambda / 2) ^ 2
  let c := 2 * atan2 (Real.sqrt a) (Real.sqrt (1 - a))
  R * c

/-- The haversine distance between two distinct points on the zero meridian
with latitudes in `[0, 90]` is strictly positive. -/
theorem haversine_distance_pos_meridian (lat1 lat2 : ℝ) (h1 : 0 ≤ lat1) (h2 : lat1 < lat2)
    (h3 : lat2 ≤ 90) : 0 < haversine_distance lat1 0 lat2 0 := by
  have hpi := Real.pi_pos
  set t := radians (lat2 - lat1) / 2 with ht
  have hteq : t = (lat2 - lat1) * Real.pi / 360 := by
    rw [ht, radians]
    ring
  have ht0 : 0 < t := by
    rw [hteq]
    have hd : 0 < lat2 - lat1 := by linarith
    positivity
  have htlt : t < Real.pi / 2 := by
    rw [hteq]
    have hd : lat2 - lat1 ≤ 90 := by linarith
    nlinarith
  have hsin_pos : 0 < Real.sin t :=
    Real.sin_pos_of_pos_of_lt_pi ht0 (by linarith)
  have hcos_pos : 0 < Real.cos t :=
    Real.cos_pos_of_mem_Ioo ⟨by linarith, htlt⟩
  simp only [haversine_distance]
  have hlam : radians (0 - 0) = 0 := by
    rw [radians]
    norm_num
  rw [hlam]
  have ha : Real.sin (radians (lat2 - lat1) / 2) ^ 2 +
      Real.cos (radians lat1) * Real.cos (radians lat2) * Real.sin (0 / 2) ^ 2 =
      Real.sin t ^ 2 := by
    rw [ht]
    simp
  rw [ha]
  have hsub : 1 - Real.sin t ^ 2 = Real.cos t ^ 2 := by
    have := Real.sin_sq_add_cos_sq t
    linarith
  rw [hsub, Real.sqrt_sq (le_of_lt hsin_pos), Real.sqrt_sq (le_of_lt hcos_pos)]
  have hat : 0 < atan2 (Real.sin t) (Real.cos t) := by
    rw [atan2, if_pos hcos_pos]
    have := Real.arctan_strictMono (div_pos hsin_pos hcos_pos)
    rwa [Real.arctan_zero] at this
  nlinarith [hat]

/-! ### Consequences of `ResultShape` -/

theorem getD_eq_getElem_of_lt (l : List Nat) (i : Nat) (h : i < l.length) :
    l.getD i 0 = l[i] := by
  simp [List.getD_eq_getElem?_getD, List.getElem?_eq_getElem h]

theorem map_eq_range'_some (F : List Nat) (g : Nat → Option Nat) (base : Nat)
    (hpt : ∀ i, i < F.length → g (F.getD i 0) = some (base + i)) :
    F.map g = (List.range' base F.length).map some := by
  apply List.ext_getElem
  · simp
  · intro i hi1 hi2
    simp only [List.getElem_map]
    have hlt : i < F.length := by simpa using hi1
    rw [← getD_eq_getElem_of_lt F i hlt, hpt i hlt]
    congr 1
    simp [List.getElem_range']

/-- Membership in the three parts of a shaped result, together with class and
sequence-value information. -/
theorem ResultShape_located (h hOut : Heap) (fB aB lB : List Nat) (r : RouteResult)
    (hshape : ResultShape h hOut fB aB lB r)
    (hFclass : ∀ x ∈ fB, isFirstStop (hget h x))
    (hAclass : ∀ x ∈ aB, isAutoStop (hget h x))
    (hLclass : ∀ x ∈ lB, isLastStop (hget h x)) :
    ∃ F M L : List Nat, r.stops = F ++ M ++ L ∧
      (∀ x ∈ F, isFirstStop (hget hOut x) ∧
        ∃ i, i < F.length ∧ (hget hOut x).sequence_order = some (1 + i)) ∧
      (∀ x ∈ M, isAutoStop (hget hOut x) ∧
        ∃ i, i < M.length ∧ (hget hOut x).sequence_order = some (1 + F.length + i)) ∧
      (∀ x ∈ L, isLastStop (hget hOut x) ∧
        ∃ i, i < L.length ∧
          (hget hOut x).sequence_order = some (1 + F.length + M.length + i)) := by
  obtain ⟨F, M, L, hsplit, hFlen, hLlen, hFc, hMc, hLc, hb, hnd⟩ := hshape
  refine ⟨F, M, L, hsplit, ?_, ?_, ?_⟩
  · intro x hx
    obtain ⟨i, hi, hieq⟩ := mem_getD_nat F x hx
    have hcc := hFc i hi
    rw [hieq] at hcc
    constructor
    · rw [isFirstStop, hcc]
      have := hFclass _ (getD_mem_of_lt fB i (by omega))
      rw [isFirstStop] at this
      exact this
    · exact ⟨i, hi, by rw [hcc]⟩
  · intro x hx
    obtain ⟨i, hi, hieq⟩ := mem_getD_nat M x hx
    obtain ⟨b, hbmem, hcc⟩ := hMc i hi
    rw [hieq] at hcc
    constructor
    · rw [isAutoStop, hcc]
      have := hAclass _ hbmem
      rw [isAutoStop] at this
      exact this
    · exact ⟨i, hi, by rw [hcc]⟩
  · intro x hx
    obtain ⟨i, hi, hieq⟩ := mem_getD_nat L x hx
    have hcc := hLc i hi
    rw [hieq] at hcc
    constructor
    · rw [isLastStop, hcc]
      have := hLclass _ (getD_mem_of_lt lB i (by omega))
      rw [isLastStop] at this
      exact this
    · exact ⟨i, hi, by rw [hcc]⟩

/-- A shaped result has contiguous 1-based positions and orders the buckets
first < auto < last. -/
theorem ResultShape_props (h hOut : Heap) (fB aB lB : List Nat) (r : RouteResult)
    (hshape : ResultShape h hOut fB aB lB r)
    (hFclass : ∀ x ∈ fB, isFirstStop (hget h x))
    (hAclass : ∀ x ∈ aB, isAutoStop (hget h x))
    (hLclass : ∀ x ∈ lB, isLastStop (hget h x)) :
    (r.stops.map (fun a => (hget hOut a).sequence_order) =
      (List.range' 1 r.stops.length).map some) ∧
    (∀ a ∈ r.stops, ∀ b ∈ r.stops,
      ((isFirstStop (hget hOut a) ∧ isAutoStop (hget hOut b)) ∨
       (isAutoStop (hget hOut a) ∧ isLastStop (hget hOut b)) ∨
       (isFirstStop (hget hOut a) ∧ isLastStop (hget hOut b))) →
      (hget hOut a).sequence_order.getD 0 < (hget hOut b).sequence_order.getD 0) ∧
    (∀ x ∈ r.stops, isFirstStop (hget hOut x) ∨ isAutoStop (hget hOut x) ∨
      isLastStop (hget hOut x)) := by
  obtain ⟨F, M, L, hsplit, hFlen, hLlen, hFc, hMc, hLc, hb, hnd⟩ := hshape
  obtain ⟨F', M', L', hsplit', hFloc, hMloc, hLloc⟩ :=
    ResultShape_located h hOut fB aB lB r
      ⟨F, M, L, hsplit, hFlen, hLlen, hFc, hMc, hLc, hb, hnd⟩ hFclass hAclass hLclass
  -- the two decompositions coincide because ++ is injective given the lengths
  -- (we bypass that by only using the located version for parts 2 and 3)
  refine ⟨?_, ?_, ?_⟩
  · -- contiguous positions
    rw [hsplit]
    have hFmap : F.map (fun a => (hget hOut a).sequence_order) =
        (List.range' 1 F.length).map some := by
      apply map_eq_range'_some
      intro i hi
      rw [hFc i hi]
    have hMmap : M.map (fun a => (hget hOut a).sequence_order) =
        (List.range' (1 + F.length) M.length).map some := by
      apply map_eq_range'_some
      intro i hi
      obtain ⟨b, _, hcc⟩ := hMc i hi
      rw [hcc]
    have hLmap : L.map (fun a => (hget hOut a).sequence_order) =
        (List.range' (1 + F.length + M.length) L.length).map some := by
      apply map_eq_range'_some
      intro i hi
      rw [hLc i hi]
    simp only [List.map_append, List.length_append, hFmap, hMmap, hLmap]
    rw [← List.map_append, ← List.map_append,
      show 1 + F.length + M.length = 1 + (F.length + M.length) from by omega,
      ← range'_split, ← range'_split]
  · -- bucket ordering
    intro a ha b hb2 hcase
    rw [hsplit'] at ha hb2
    have hloc : ∀ x, x ∈ F' ++ M' ++ L' →
        (isFirstStop (hget hOut x) ∧
          ∃ i, i < F'.length ∧ (hget hOut x).sequence_order = some (1 + i)) ∨
        (isAutoStop (hget hOut x) ∧
          ∃ i, i < M'.length ∧ (hget hOut x).sequence_order = some (1 + F'.length + i)) ∨
        (isLastStop (hget hOut x) ∧
          ∃ i, i < L'.length ∧
            (hget hOut x).sequence_order = some (1 + F'.length + M'.length + i)) := by
      intro x hx
      rcases List.mem_append.mp hx with hx1 | hxL
      · rcases List.mem_append.mp hx1 with hxF | hxM
        · exact Or.inl (hFloc x hxF)
        · exact Or.inr (Or.inl (hMloc x hxM))
      · exact Or.inr (Or.inr (hLloc x hxL))
    have hseqa := hloc a ha
    have hseqb := hloc b hb2
    rcases hcase with ⟨hfa, hab⟩ | ⟨haa, hlb⟩ | ⟨hfa, hlb⟩
    · -- first < auto
      rcases hseqa with ⟨_, i, hi, hia⟩ | ⟨hcls, _⟩ | ⟨hcls, _⟩
      · rcases hseqb with ⟨hcls, _⟩ | ⟨_, j, hj, hjb⟩ | ⟨hcls, _⟩
        · exact absurd hab (isFirstStop_not_auto _ hcls)
        · rw [hia, hjb]
          simp only [Option.getD_some]
          omega
        · exact absurd hab (isLastStop_not_auto _ hcls)
      · exact absurd hcls (isFirstStop_not_auto _ hfa)
      · exact absurd hcls (isFirstStop_not_last _ hfa)
    · -- auto < last
      rcases hseqa with ⟨hcls, _⟩ | ⟨_, i, hi, hia⟩ | ⟨hcls, _⟩
      · exact absurd haa (isFirstStop_not_auto _ hcls)
      · rcases hseqb with ⟨hcls, _⟩ | ⟨hcls, _⟩ | ⟨_, j, hj, hjb⟩
        · exact absurd hlb (isFirstStop_not_last _ hcls)
        · exact absurd hcls (isLastStop_not_auto _ hlb)
        · rw [hia, hjb]
          simp only [Option.getD_some]
          omega
      · exact absurd haa (isLastStop_not_auto _ hcls)
    · -- first < last
      rcases hseqa with ⟨_, i, hi, hia⟩ | ⟨hcls, _⟩ | ⟨hcls, _⟩
      · rcases hseqb with ⟨hcls, _⟩ | ⟨hcls, _⟩ | ⟨_, j, hj, hjb⟩
        · exact absurd hlb (isFirstStop_not_last _ hcls)
        · exact absurd hcls (isLastStop_not_auto _ hlb)
        · rw [hia, hjb]
          simp only [Option.getD_some]
          omega
      · exact absurd hcls (isFirstStop_not_auto _ hfa)
      · exact absurd hcls (isFirstStop_not_last _ hfa)
  · -- class membership
    intro x hx
    rw [hsplit'] at hx
    rcases List.mem_append.mp hx with hx1 | hxL
    · rcases List.mem_append.mp hx1 with hxF | hxM
      · exact Or.inl (hFloc x hxF).1
      · exact Or.inr (Or.inl (hMloc x hxM).1)
    · exact Or.inr (Or.inr (hLloc x hxL).1)

/-! ### Auxiliary facts for the claims -/

theorem extractDiag_cons (i : Nat) (row : List OElem) (rest : List (List OElem)) :
    extractDiag i (row :: rest) =
      match (if i < row.length then row.getD i none else none) with
      | some (dd, tt) =>
        ((extractDiag (i + 1) rest).1 + dd, (extractDiag (i + 1) rest).2 + tt)
      | none => extractDiag (i + 1) rest := rfl

instance (st : Stop) : Decidable (isFirstStop st) :=
  decidable_of_iff (st.order_preference = some "first") (by rw [isFirstStop])

instance (st : Stop) : Decidable (isAutoStop st) :=
  decidable_of_iff (st.order_preference.getD "auto" = "auto") (by rw [isAutoStop])

instance (st : Stop) : Decidable (isLastStop st) :=
  decidable_of_iff (st.order_preference = some "last") (by rw [isLastStop])

theorem isAutoStop_pref (st : Stop) (h : isAutoStop st) :
    st.order_preference = none ∨ st.order_preference = some "auto" := by
  rw [isAutoStop] at h
  match hp : st.order_preference with
  | none => exact Or.inl rfl
  | some p =>
    rw [hp] at h
    simp only [Option.getD_some] at h
    exact Or.inr (by rw [h])

theorem bucketFirst_class (h : Heap) (stops : List Nat) :
    ∀ x ∈ bucketFirst h stops, isFirstStop (hget h x) :=
  fun x hx => ((mem_bucketFirst h stops x).mp hx).2

theorem bucketAuto_class (h : Heap) (stops : List Nat) :
    ∀ x ∈ bucketAuto h stops, isAutoStop (hget h x) :=
  fun x hx => ((mem_bucketAuto h stops x).mp hx).2

theorem bucketLast_class (h : Heap) (stops : List Nat) :
    ∀ x ∈ bucketLast h stops, isLastStop (hget h x) :=
  fun x hx => ((mem_bucketLast h stops x).mp hx).2

/-- If every node of the solved route equals the start index, the
result-assembly loop of `optimize_route` keeps nothing and allocates
nothing. -/
theorem buildAuto_all_start (autoB : List Nat) (startIdx : Nat) (e : Option Coord)
    (endIdx offset : Nat) (h : Heap) (route : List Nat)
    (hall : ∀ n ∈ route, n = startIdx) :
    (buildAuto autoB startIdx e endIdx offset h route).2 = [] ∧
      (buildAuto autoB startIdx e endIdx offset h route).1 = h := by
  induction route with
  | nil => exact ⟨rfl, rfl⟩
  | cons n rest ih =>
    have hn : n = startIdx := hall n (List.mem_cons_self _ _)
    simp only [buildAuto, if_pos (Or.inl hn)]
    exact ih (fun x hx => hall x (List.mem_cons_of_mem _ hx))

/-- The three buckets of a one-element list whose stop is auto-class. -/
theorem buckets_of_single_auto (h : Heap) (a : Nat) (hauto : isAutoStop (hget h a)) :
    bucketFirst h [a] = [] ∧ bucketAuto h [a] = [a] ∧ bucketLast h [a] = [] := by
  rcases isAutoStop_pref _ hauto with hp | hp
  · exact ⟨by simp [bucketFirst, hp], by simp [bucketAuto, hp], by simp [bucketLast, hp]⟩
  · exact ⟨by simp [bucketFirst, hp], by simp [bucketAuto, hp], by simp [bucketLast, hp]⟩

/-- Clusters returned by `cluster_stops` on a nonempty input are nonempty. -/
theorem cluster_stops_ne_nil {α : Type} (stops : List α) (cfg : ClusterConfig)
    (labels : Nat → Nat) (hs : stops ≠ []) :
    ∀ c ∈ cluster_stops stops cfg labels, c ≠ [] := by
  intro c hc
  by_cases hle : stops.length ≤ cfg.max_stops_per_cluster
  · simp only [cluster_stops, if_pos hle] at hc
    rw [List.mem_singleton.mp hc]
    exact hs
  · simp only [cluster_stops, if_neg hle] at hc
    have := List.of_mem_filter hc
    simpa [List.isEmpty_iff] using this

/-- The clamp written in the specification: `clamp(x, lo, hi)`. -/
def clampSpec (x lo hi : Nat) : Nat := min (max x lo) hi

/-- The code's haversine distance as a distance function on rational
coordinate pairs (the instantiation the Cluster Sequencer runs with). -/
noncomputable def haversineD : Coord → Coord → ℝ :=
  fun p q => haversine_distance (p.1 : ℝ) (p.2 : ℝ) (q.1 : ℝ) (q.2 : ℝ)

/-! ### Concrete fixtures for witnesses and counterexamples -/

def stopAuto1 : Stop := ⟨1, 10, 20, some "auto", none⟩

def stopNone2 : Stop := ⟨2, 11, 21, none, none⟩

def heapW : Heap := [stopAuto1, stopNone2]

def heapC6 : Heap := [⟨1, 0, 0, none, none⟩, ⟨2, 1, 0, none, none⟩, ⟨3, 2, 0, none, none⟩]

def solverW : List Coord → Nat → Nat → Option SolveResult := fun _ a b => some ⟨[a, 1, b], 3, 4⟩

def solverC1 : List Coord → Nat → Nat → Option SolveResult := fun _ _ _ => some ⟨[0, 0], 0, 0⟩

def solverNone : List Coord → Nat → Nat → Option SolveResult := fun _ _ _ => none

def oracleW : Oracle := fun os _ => os.map (fun _ => [some (9, 9), some (9, 9), some (9, 9)])

def oracleC3 : Oracle := fun _ _ =>
  [[some (100, 10)], [some (7, 7), none], [none, none, some (200, 20)]]

def dW : Coord → Coord → ℚ := fun p q =>
  (p.1 - q.1) * (p.1 - q.1) + (p.2 - q.2) * (p.2 - q.2)

def labelsW : Nat → Nat := fun i => i % 2

def cfgW : OptimizationConfig := { max_stops_per_cluster := 1 }

/-! ### Claims -/

/-- C1: the claim is violated by the code.  On a single 'auto' stop with no
start and no end location, `optimize_route` builds a one-location problem in
which index 0 is simultaneously the depot (`start_index = end_index = 0`) and
the stop itself; every node of any solved route over one location equals 0,
the result-assembly loop skips each of them (`node_index == start_index`),
and the returned result therefore has an empty stop list — the stop is
dropped instead of being returned at sequence position 1 (and the solver is
invoked rather than short-circuited). -/
theorem C1_single_auto_stop_dropped (solver : List Coord → Nat → Nat → Option SolveResult)
    (oracle : Oracle) (cfg : OptimizationConfig) (h : Heap) (a : Nat)
    (hauto : isAutoStop (hget h a)) (sol : SolveResult)
    (hsol : solver (routeLocations h [a] none none) 0 0 = some sol)
    (hroute : ∀ n ∈ sol.route, n = 0) :
    ∃ r, (optimize_routeH solver oracle cfg [a] none none h).1 = some r ∧ r.stops = [] := by
  obtain ⟨hbF, hbA, hbL⟩ := buckets_of_single_auto h a hauto
  have hA : bucketAuto h [a] ≠ [] := by
    rw [hbA]
    simp
  have hsol' : solver (routeLocations h (bucketAuto h [a]) none none) 0
      (endIndex h (bucketAuto h [a]) none none) = some sol := by
    rw [hbA]
    exact hsol
  rw [optimize_routeH_some solver oracle cfg [a] none none h sol hA hsol']
  simp only
  obtain ⟨hba2, _⟩ := buildAuto_all_start (bucketAuto h [a]) 0 none
    (endIndex h (bucketAuto h [a]) none none) 0 h sol.route hroute
  refine ⟨_, rfl, ?_⟩
  simp [hbF, hbL, hba2, copySeq]

theorem C1_single_auto_stop_dropped_witness :
    ∃ r, (optimize_routeH solverC1 oracleW { } [0] none none [stopAuto1]).1 = some r ∧
      r.stops = [] :=
  C1_single_auto_stop_dropped solverC1 oracleW { } [stopAuto1] 0 (by decide)
    ⟨[0, 0], 0, 0⟩ rfl (by decide)

/-- C2: the claim is violated by the code.  On the clustered path,
`optimize_route_with_clustering` calls the Route Refiner inside every
per-cluster `optimize_route` invocation (whenever the precompute flag is on
and the per-cluster route is non-trivial), and performs no final refiner pass
over the stitched route: the refiner-call trace has exactly one entry per
cluster — so at least two on any clustered input — and nothing after the
per-cluster loop, while the per-cluster totals summed are the refined
(oracle-derived) values, not the estimator's. -/
theorem C2_refiner_runs_per_cluster {β : Type} [LinearOrderedField β]
    (solver : List Coord → Nat → Nat → Option SolveResult) (oracle : Oracle)
    (d : Coord → Coord → β) (labels : Nat → Nat) (cfg : OptimizationConfig)
    (stops : List Nat) (s e : Option Coord) (h : Heap)
    (hv : ∀ a ∈ stops, a < h.length)
    (hcond : ¬ (bucketAuto h stops = [] ∨ cfg.enable_clustering = false ∨
      (bucketAuto h stops).length ≤ cfg.max_stops_per_cluster))
    (hpre : cfg.use_haversine_precompute = true)
    (hsolver : ∀ locs i1 i2, ∃ sol, solver locs i1 i2 = some sol ∧ 1 < sol.route.length) :
    (optimize_route_with_clusteringH solver oracle d labels cfg stops s e h).2.2.length =
      (cluster_stops (bucketAuto h stops)
        { max_stops_per_cluster := cfg.max_stops_per_cluster } labels).length ∧
    (2 ≤ (cluster_stops (bucketAuto h stops)
        { max_stops_per_cluster := cfg.max_stops_per_cluster } labels).length →
      2 ≤ (optimize_route_with_clusteringH solver oracle d labels cfg stops s e h).2.2.length) := by
  have hA : bucketAuto h stops ≠ [] := fun hc => hcond (Or.inl hc)
  rw [optimize_route_with_clusteringH_clustered solver oracle d labels cfg stops s e h hcond]
  simp only
  have hne : ∀ cl ∈ (optimize_cluster_order d h (cluster_stops (bucketAuto h stops)
      { max_stops_per_cluster := cfg.max_stops_per_cluster } labels) s e).map
        (fun i => (cluster_stops (bucketAuto h stops)
          { max_stops_per_cluster := cfg.max_stops_per_cluster } labels).getD i []),
      cl ≠ [] := by
    intro cl hclm
    obtain ⟨i, hi, rfl⟩ := List.mem_map.mp hclm
    rw [optimize_cluster_order] at hi
    have hilt := optimize_cluster_orderI_lt d h _ s e i hi
    exact cluster_stops_ne_nil _ _ _ hA _ (getD_mem_of_lt_gen _ _ _ hilt)
  have htr := clusterLoop_trace solver oracle cfg e (bucketAuto h stops) hpre hsolver
    ((optimize_cluster_order d h (cluster_stops (bucketAuto h stops)
        { max_stops_per_cluster := cfg.max_stops_per_cluster } labels) s e).map
      (fun i => (cluster_stops (bucketAuto h stops)
        { max_stops_per_cluster := cfg.max_stops_per_cluster } labels).getD i []))
    s h hne (ordered_clusters_pool d h (bucketAuto h stops) _ labels s e)
    (fun x hx => hv x (List.mem_of_mem_filter hx)) (bucketAuto_class h stops)
  rw [htr, List.length_map, optimize_cluster_order,
    optimize_cluster_orderI_length d h _ s e]
  exact ⟨rfl, fun hk => hk⟩

theorem C2_refiner_runs_per_cluster_witness :
    (optimize_route_with_clusteringH solverW oracleW dW labelsW cfgW
      [0, 1] (some (0, 0)) (some (50, 60)) heapW).2.2.length =
      (cluster_stops (bucketAuto heapW [0, 1])
        { max_stops_per_cluster := cfgW.max_stops_per_cluster } labelsW).length ∧
    (2 ≤ (cluster_stops (bucketAuto heapW [0, 1])
        { max_stops_per_cluster := cfgW.max_stops_per_cluster } labelsW).length →
      2 ≤ (optimize_route_with_clusteringH solverW oracleW dW labelsW cfgW
        [0, 1] (some (0, 0)) (some (50, 60)) heapW).2.2.length) :=
  C2_refiner_runs_per_cluster solverW oracleW dW labelsW cfgW [0, 1]
    (some (0, 0)) (some (50, 60)) heapW (by decide) (by decide) rfl
    (fun locs i1 i2 => ⟨⟨[i1, 1, i2], 3, 4⟩, rfl, by simp⟩)

/-- C3 counterexample: with the oracle unavailable on the middle leg of the
3-leg route `[0, 1, 2, 0]`, refinement returns 100 + 200 = 300 — the missing
leg contributes 0, not the estimator's (haversine) value for that leg, which
is strictly positive. -/
theorem C3_unavailable_leg_counterexample :
    (refineH oracleC3 [(0, 0), (1, 0), (5, 0)] [0, 1, 2, 0]).1.1 = 300 ∧
    ¬ (((refineH oracleC3 [(0, 0), (1, 0), (5, 0)] [0, 1, 2, 0]).1.1 : ℝ) =
        100 + 200 + haversine_distance 1 0 5 0) := by
  have h1 : (refineH oracleC3 [(0, 0), (1, 0), (5, 0)] [0, 1, 2, 0]).1.1 = 300 := by decide
  refine ⟨h1, ?_⟩
  rw [h1]
  intro hcon
  have hpos := haversine_distance_pos_meridian 1 5 (by norm_num) (by norm_num) (by norm_num)
  norm_num at hcon
  linarith

/-- C3 (amended): if the Distance Oracle returns an unavailable element for
exactly the middle leg of a 3-leg refined route, refinement does not fail
(it is a total function) and the resulting totals are the sums of the other
two legs' oracle values alone — the missing leg contributes 0. -/
theorem C3_unavailable_leg_contributes_zero (oracle : Oracle) (locs : List Coord)
    (route : List Nat) (r0 r1 r2 : List OElem) (d0 t0 d2 t2 : Nat)
    (hroute : route.length = 4)
    (hrows : oracle ((route.map (fun i => locs.getD i (0, 0))).dropLast)
      ((route.map (fun i => locs.getD i (0, 0))).drop 1) = [r0, r1, r2])
    (h0 : r0.getD 0 none = some (d0, t0))
    (h1 : r1.getD 1 none = none)
    (h2 : r2.getD 2 none = some (d2, t2)) :
    (refineH oracle locs route).1 = (d0 + d2, t0 + t2) := by
  rw [refineH, if_neg (by omega)]
  simp only
  rw [hrows]
  have hl0 : 0 < r0.length := by
    by_contra hc
    rw [List.getD_eq_getElem?_getD, List.getElem?_eq_none (by omega)] at h0
    simp at h0
  have hl2 : 2 < r2.length := by
    by_contra hc
    rw [List.getD_eq_getElem?_getD, List.getElem?_eq_none (by omega)] at h2
    simp at h2
  have hguard1 : (if 1 < r1.length then r1.getD 1 none else none) = none := by
    split
    · exact h1
    · rfl
  have e2 : extractDiag 2 [r2] = (d2, t2) := by
    rw [extractDiag_cons, if_pos hl2, h2]
    simp [extractDiag]
  have e1 : extractDiag 1 [r1, r2] = (d2, t2) := by
    rw [extractDiag_cons, hguard1]
    exact e2
  have e0 : extractDiag 0 [r0, r1, r2] = (d2 + d0, t2 + t0) := by
    rw [extractDiag_cons, if_pos hl0, h0, e1]
  rw [e0]
  simp [Nat.add_comm]

theorem C3_unavailable_leg_contributes_zero_witness :
    (refineH oracleC3 [(0, 0), (1, 0), (5, 0)] [0, 1, 2, 0]).1 = (100 + 200, 10 + 20) :=
  C3_unavailable_leg_contributes_zero oracleC3 [(0, 0), (1, 0), (5, 0)] [0, 1, 2, 0]
    [some (100, 10)] [some (7, 7), none] [none, none, some (200, 20)]
    100 10 200 20 (by decide) rfl (by decide) (by decide) (by decide)

/-- C4: `VRPSolver.solve` folds over `num_starts` attempt outcomes keeping
the strictly better objective; it returns `None` exactly when every attempt
failed, otherwise it returns an extracted solution whose objective value is
minimal over all attempts; the retained best cost is monotonically
non-increasing in the number of attempts run; and when the solver yields no
solution, `optimize_route` returns `None` (a value, not an exception). -/
theorem C4_multistart_retains_best (cfg : OptimizationConfig) (atts : Nat → Attempt)
    (solver : List Coord → Nat → Nat → Option SolveResult) (oracle : Oracle)
    (stops : List Nat) (s e : Option Coord) (h : Heap) :
    (VRPSolver_solve cfg atts = none ↔ ∀ i, i < cfg.num_starts → atts i = none) ∧
    (∀ r, VRPSolver_solve cfg atts = some r →
      ∃ i, i < cfg.num_starts ∧ ∃ c, atts i = some (c, r) ∧
        ∀ j, j < cfg.num_starts → ∀ p : Nat × SolveResult, atts j = some p → c ≤ p.1) ∧
    (∀ j k, j ≤ k → runBest atts k ≤ runBest atts j) ∧
    ((∀ locs i1 i2, solver locs i1 i2 = none) → bucketAuto h stops ≠ [] →
      (optimize_routeH solver oracle cfg stops s e h).1 = none) := by
  refine ⟨?_, ?_, runBest_antitone atts, ?_⟩
  · rw [VRPSolver_solve, solveLoop_none_iff]
    constructor
    · intro hall i hi
      exact hall (atts i) (List.mem_map_of_mem atts (List.mem_range.mpr hi))
    · intro hall x hx
      obtain ⟨i, hi, rfl⟩ := List.mem_map.mp hx
      exact hall i (List.mem_range.mp hi)
  · intro r hr
    rcases solveLoop_good ((List.range cfg.num_starts).map atts) with ⟨hb1, _⟩ |
      ⟨c, sst, hb1, hb2, hb3⟩
    · rw [VRPSolver_solve, hb1] at hr
      simp at hr
    · rw [VRPSolver_solve, hb1] at hr
      simp only at hr
      obtain ⟨i, hi, hieq⟩ := List.mem_map.mp hb2
      refine ⟨i, List.mem_range.mp hi, c, ?_, ?_⟩
      · rw [hieq, Option.some_inj.mp hr]
      · intro j hj p hp
        exact hb3 p (by
          rw [← hp]
          exact List.mem_map_of_mem atts (List.mem_range.mpr hj))
  · intro hnone hA
    exact congrArg Prod.fst (optimize_routeH_none solver oracle cfg stops s e h hA
      (hnone _ _ _)) |>.trans rfl

theorem C4_multistart_retains_best_witness :
    (VRPSolver_solve { num_starts := 3 }
      (fun i => if i = 0 then none else if i = 1 then some (7, ⟨[0, 1], 7, 7⟩)
        else some (5, ⟨[1, 0], 5, 5⟩)) = some ⟨[1, 0], 5, 5⟩) ∧
    ((optimize_routeH solverNone oracleW { } [0] none none [stopAuto1]).1 = none) := by
  constructor
  · decide
  · exact (C4_multistart_retains_best { } (fun _ => none) solverNone oracleW [0] none none
      [stopAuto1]).2.2.2 (fun _ _ _ => rfl) (by decide)

/-- C5: for an oversized stop list (with in-range k-means labels, as
scikit-learn guarantees), the clusters returned by `cluster_stops` are an
exact partition of the input: their concatenation is a permutation of the
input list (every stop in exactly one cluster, none duplicated, none
omitted) and no returned cluster is empty. -/
theorem C5_clusters_partition (stops : List Stop) (cfg : ClusterConfig)
    (labels : Nat → Nat) (hgt : cfg.max_stops_per_cluster < stops.length)
    (hlab : ∀ i, i < stops.length → labels i < n_clusters_of cfg stops.length) :
    ((cluster_stops stops cfg labels).flatten).Perm stops ∧
      ∀ c ∈ cluster_stops stops cfg labels, c ≠ [] :=
  cluster_stops_partition stops cfg labels hgt hlab

theorem C5_clusters_partition_witness :
    ((cluster_stops [stopAuto1, stopNone2, ⟨3, 12, 22, none, none⟩]
        { max_stops_per_cluster := 2 } labelsW).flatten).Perm
      [stopAuto1, stopNone2, ⟨3, 12, 22, none, none⟩] ∧
    ∀ c ∈ cluster_stops [stopAuto1, stopNone2, ⟨3, 12, 22, none, none⟩]
        { max_stops_per_cluster := 2 } labelsW, c ≠ [] :=
  C5_clusters_partition [stopAuto1, stopNone2, ⟨3, 12, 22, none, none⟩]
    { max_stops_per_cluster := 2 } labelsW (by decide) (by decide)

/-- C6 counterexample: with NO start coordinate, an end coordinate, and 3
clusters, the code still applies the 2-opt branch (the source tests only
`end_location and len(order) > 2`), so "2-opt is applied only if both a start
coordinate and an end coordinate are given" is false at this input. -/
theorem C6_two_opt_without_start :
    (optimize_cluster_orderI haversineD heapC6 [[0], [1], [2]] none (some (4, 0))).2 = true ∧
    (none : Option Coord).isSome = false := by
  constructor
  · rw [optimize_cluster_orderI_flag]
    exact ⟨rfl, by decide⟩
  · rfl

/-- C6 (amended): `optimize_cluster_order` applies 2-opt if and only if an
end coordinate is given and at least 3 clusters exist — a start coordinate is
not required — and in every other case the nearest-neighbor order is returned
unchanged. -/
theorem C6_two_opt_condition (h : Heap) (clusters : List (List Nat)) (s e : Option Coord) :
    ((optimize_cluster_orderI haversineD h clusters s e).2 = true ↔
      (e.isSome = true ∧ 2 < clusters.length)) ∧
    ((optimize_cluster_orderI haversineD h clusters s e).2 = false →
      optimize_cluster_order haversineD h clusters s e = nnOrder haversineD h clusters s) ∧
    optimize_cluster_order haversineD h clusters s e =
      (optimize_cluster_orderI haversineD h clusters s e).1 := by
  refine ⟨optimize_cluster_orderI_flag _ _ _ _ _, ?_, rfl⟩
  intro hf
  rw [optimize_cluster_order]
  exact optimize_cluster_orderI_false _ _ _ _ _ hf

theorem C6_two_opt_condition_witness :
    (optimize_cluster_orderI haversineD heapC6 [[0], [1]] (some (0, 0)) none).2 = false ∧
    optimize_cluster_order haversineD heapC6 [[0], [1]] (some (0, 0)) none =
      nnOrder haversineD heapC6 [[0], [1]] (some (0, 0)) := by
  have hiff := (C6_two_opt_condition heapC6 [[0], [1]] (some (0, 0)) none).1
  have hflag : (optimize_cluster_orderI haversineD heapC6 [[0], [1]]
      (some (0, 0)) none).2 = false := by
    have h2 : ¬ ((none : Option Coord).isSome = true ∧
        2 < ([[0], [1]] : List (List Nat)).length) := by simp
    cases hb : (optimize_cluster_orderI haversineD heapC6 [[0], [1]]
        (some (0, 0)) none).2
    · rfl
    · exact absurd (hiff.mp hb) h2
  exact ⟨hflag, (C6_two_opt_condition heapC6 [[0], [1]] (some (0, 0)) none).2.1 hflag⟩

/-- C7: `cluster_stops` returns the single cluster `[stops]` whenever the
stop count is at most `max_stops_per_cluster`; the cluster count it requests
from k-means is exactly `clamp(ceil(N / max_stops_per_cluster), min_clusters,
max_clusters)`; and with the orchestrator's cluster configuration (minimum 2,
maximum 10) a stop set of size exactly `max_stops_per_cluster + 1` exceeds
the cap and is clustered with exactly 2 (in particular at least 2) requested
clusters. -/
theorem C7_single_or_clamped_count (stops : List Stop) (cfg : ClusterConfig)
    (labels : Nat → Nat) (cap n : Nat) :
    (stops.length ≤ cfg.max_stops_per_cluster → cluster_stops stops cfg labels = [stops]) ∧
    (n_clusters_of cfg n =
      clampSpec (ceilDiv n cfg.max_stops_per_cluster) cfg.min_clusters cfg.max_clusters) ∧
    (1 ≤ cap →
      cap < cap + 1 ∧
      n_clusters_of { max_stops_per_cluster := cap } (cap + 1) = 2 ∧
      2 ≤ n_clusters_of { max_stops_per_cluster := cap } (cap + 1)) := by
  refine ⟨?_, ?_, ?_⟩
  · intro hle
    simp [cluster_stops, hle]
  · rw [n_clusters_of, clampSpec, Nat.max_comm]
  · intro hcap
    have hceil : ceilDiv (cap + 1) cap = 2 := by
      rw [ceilDiv, show cap + 1 + cap - 1 = cap * 2 from by omega,
        Nat.mul_div_cancel_left 2 (by omega)]
    have hval : n_clusters_of { max_stops_per_cluster := cap } (cap + 1) = 2 := by
      rw [n_clusters_of]
      simp only [hceil]
      rfl
    exact ⟨by omega, hval, by rw [hval]⟩

theorem C7_single_or_clamped_count_witness :
    cluster_stops [stopAuto1, stopNone2] ({ } : ClusterConfig) labelsW =
      [[stopAuto1, stopNone2]] ∧
    n_clusters_of { max_stops_per_cluster := 2 } (2 + 1) = 2 :=
  ⟨(C7_single_or_clamped_count [stopAuto1, stopNone2] { } labelsW 2 3).1 (by decide),
   ((C7_single_or_clamped_count [stopAuto1, stopNone2] { } labelsW 2 3).2.2
     (by decide)).2.1⟩

/-- C8: in every non-null result of `optimize_route` and of
`optimize_route_with_clustering`, the assigned `sequence_order` values are
the contiguous 1-based positions 1..n in route order (hence positive and
unique within the route), and every 'first'-preference stop's position is
less than every auto stop's position, which is less than every
'last'-preference stop's position. -/
theorem C8_positions_contiguous_and_ordered {β : Type} [LinearOrderedField β]
    (solver : List Coord → Nat → Nat → Option SolveResult) (oracle : Oracle)
    (d : Coord → Coord → β) (labels : Nat → Nat) (cfg : OptimizationConfig)
    (stops : List Nat) (s e : Option Coord) (h : Heap)
    (hv : ∀ a ∈ stops, a < h.length) :
    (∀ r, (optimize_routeH solver oracle cfg stops s e h).1 = some r →
      (r.stops.map (fun a =>
          (hget ((optimize_routeH solver oracle cfg stops s e h).2.1) a).sequence_order) =
        (List.range' 1 r.stops.length).map some) ∧
      (∀ a ∈ r.stops, ∀ b ∈ r.stops,
        ((isFirstStop (hget ((optimize_routeH solver oracle cfg stops s e h).2.1) a) ∧
            isAutoStop (hget ((optimize_routeH solver oracle cfg stops s e h).2.1) b)) ∨
         (isAutoStop (hget ((optimize_routeH solver oracle cfg stops s e h).2.1) a) ∧
            isLastStop (hget ((optimize_routeH solver oracle cfg stops s e h).2.1) b)) ∨
         (isFirstStop (hget ((optimize_routeH solver oracle cfg stops s e h).2.1) a) ∧
            isLastStop (hget ((optimize_routeH solver oracle cfg stops s e h).2.1) b))) →
        (hget ((optimize_routeH solver oracle cfg stops s e h).2.1) a).sequence_order.getD 0 <
          (hget ((optimize_routeH solver oracle cfg stops s e h).2.1) b).sequence_order.getD 0)) ∧
    (∀ r, (optimize_route_with_clusteringH solver oracle d labels cfg stops s e h).1 = some r →
      (r.stops.map (fun a =>
          (hget ((optimize_route_with_clusteringH solver oracle d labels cfg
            stops s e h).2.1) a).sequence_order) =
        (List.range' 1 r.stops.length).map some) ∧
      (∀ a ∈ r.stops, ∀ b ∈ r.stops,
        ((isFirstStop (hget ((optimize_route_with_clusteringH solver oracle d labels cfg
              stops s e h).2.1) a) ∧
            isAutoStop (hget ((optimize_route_with_clusteringH solver oracle d labels cfg
              stops s e h).2.1) b)) ∨
         (isAutoStop (hget ((optimize_route_with_clusteringH solver oracle d labels cfg
              stops s e h).2.1) a) ∧
            isLastStop (hget ((optimize_route_with_clusteringH solver oracle d labels cfg
              stops s e h).2.1) b)) ∨
         (isFirstStop (hget ((optimize_route_with_clusteringH solver oracle d labels cfg
              stops s e h).2.1) a) ∧
            isLastStop (hget ((optimize_route_with_clusteringH solver oracle d labels cfg
              stops s e h).2.1) b))) →
        (hget ((optimize_route_with_clusteringH solver oracle d labels cfg
          stops s e h).2.1) a).sequence_order.getD 0 <
          (hget ((optimize_route_with_clusteringH solver oracle d labels cfg
            stops s e h).2.1) b).sequence_order.getD 0)) := by
  constructor
  · intro r hr
    have hprops := ResultShape_props h ((optimize_routeH solver oracle cfg stops s e h).2.1)
      (bucketFirst h stops) (bucketAuto h stops) (bucketLast h stops) r
      (optimize_routeH_shape solver oracle cfg stops s e h hv r hr)
      (bucketFirst_class h stops) (bucketAuto_class h stops) (bucketLast_class h stops)
    exact ⟨hprops.1, hprops.2.1⟩
  · intro r hr
    have hprops := ResultShape_props h
      ((optimize_route_with_clusteringH solver oracle d labels cfg stops s e h).2.1)
      (bucketFirst h stops) (bucketAuto h stops) (bucketLast h stops) r
      (optimize_route_with_clusteringH_shape solver oracle d labels cfg stops s e h hv r hr)
      (bucketFirst_class h stops) (bucketAuto_class h stops) (bucketLast_class h stops)
    exact ⟨hprops.1, hprops.2.1⟩

theorem C8_positions_contiguous_and_ordered_witness :
    (List.map (fun a =>
        (hget ((optimize_routeH solverW oracleW { } [0, 1]
          (some (0, 0)) (some (50, 60)) heapW).2.1) a).sequence_order)
      ([2] : List Nat) = List.map some (List.range' 1 1)) ∧
    (List.map (fun a =>
        (hget ((optimize_route_with_clusteringH solverW oracleW dW labelsW { } [0, 1]
          (some (0, 0)) (some (50, 60)) heapW).2.1) a).sequence_order)
      ([2] : List Nat) = List.map some (List.range' 1 1)) := by
  constructor
  · have := ((C8_positions_contiguous_and_ordered solverW oracleW dW labelsW { }
      [0, 1] (some (0, 0)) (some (50, 60)) heapW (by decide)).1
      ⟨[2], 18, 18, none⟩ (by decide)).1
    simpa using this
  · have := ((C8_positions_contiguous_and_ordered solverW oracleW dW labelsW { }
      [0, 1] (some (0, 0)) (some (50, 60)) heapW (by decide)).2
      ⟨[2], 18, 18, none⟩ (by decide)).1
    simpa using this

/-- C9: neither `optimize_route` nor `optimize_route_with_clustering` mutates
a caller-supplied stop dict: after the call every input address holds exactly
the dict it held before, and every stop in a non-null result is a freshly
allocated copy, never one of the input dicts. -/
theorem C9_inputs_never_mutated {β : Type} [LinearOrderedField β]
    (solver : List Coord → Nat → Nat → Option SolveResult) (oracle : Oracle)
    (d : Coord → Coord → β) (labels : Nat → Nat) (cfg : OptimizationConfig)
    (stops : List Nat) (s e : Option Coord) (h : Heap)
    (hv : ∀ a ∈ stops, a < h.length) :
    (∀ a ∈ stops, hget ((optimize_routeH solver oracle cfg stops s e h).2.1) a = hget h a) ∧
    (∀ r, (optimize_routeH solver oracle cfg stops s e h).1 = some r →
      ∀ x ∈ r.stops, x ∉ stops) ∧
    (∀ a ∈ stops,
      hget ((optimize_route_with_clusteringH solver oracle d labels cfg stops s e h).2.1) a =
        hget h a) ∧
    (∀ r, (optimize_route_with_clusteringH solver oracle d labels cfg stops s e h).1 = some r →
      ∀ x ∈ r.stops, x ∉ stops) := by
  refine ⟨?_, ?_, ?_, ?_⟩
  · intro a ha
    exact optimize_routeH_preserves solver oracle cfg stops s e h a (hv a ha)
  · intro r hr x hx hmem
    obtain ⟨F, M, L, _, _, _, _, _, _, hb, _⟩ :=
      optimize_routeH_shape solver oracle cfg stops s e h hv r hr
    have := hb x hx
    have := hv x hmem
    omega
  · intro a ha
    exact optimize_route_with_clusteringH_preserves solver oracle d labels cfg stops s e h
      hv a (hv a ha)
  · intro r hr x hx hmem
    obtain ⟨F, M, L, _, _, _, _, _, _, hb, _⟩ :=
      optimize_route_with_clusteringH_shape solver oracle d labels cfg stops s e h hv r hr
    have := hb x hx
    have := hv x hmem
    omega

theorem C9_inputs_never_mutated_witness :
    hget ((optimize_routeH solverW oracleW { } [0, 1]
      (some (0, 0)) (some (50, 60)) heapW).2.1) 0 = hget heapW 0 ∧
    ((2 : Nat) ∉ ([0, 1] : List Nat)) := by
  constructor
  · exact (C9_inputs_never_mutated solverW oracleW dW labelsW { } [0, 1]
      (some (0, 0)) (some (50, 60)) heapW (by decide)).1 0 (by decide)
  · exact (C9_inputs_never_mutated solverW oracleW dW labelsW { } [0, 1]
      (some (0, 0)) (some (50, 60)) heapW (by decide)).2.1 ⟨[2], 18, 18, none⟩
      (by decide) 2 (by decide)

/-- C10: in the preference partition of both `optimize_route` and
`optimize_route_with_clustering`, a stop without an 'order_preference' key is
bucketed as auto (and into no other bucket), while a stop whose preference is
outside {'first', 'auto', 'last'} falls into none of the three buckets and no
stop with that preference ever appears in a returned route. -/
theorem C10_unknown_preference_dropped {β : Type} [LinearOrderedField β]
    (solver : List Coord → Nat → Nat → Option SolveResult) (oracle : Oracle)
    (d : Coord → Coord → β) (labels : Nat → Nat) (cfg : OptimizationConfig)
    (stops : List Nat) (s e : Option Coord) (h : Heap)
    (hv : ∀ a ∈ stops, a < h.length) (p : String)
    (hp1 : p ≠ "first") (hp2 : p ≠ "auto") (hp3 : p ≠ "last") :
    (∀ a ∈ stops, (hget h a).order_preference = none →
      a ∈ bucketAuto h stops ∧ a ∉ bucketFirst h stops ∧ a ∉ bucketLast h stops) ∧
    (∀ a ∈ stops, (hget h a).order_preference = some p →
      a ∉ bucketFirst h stops ∧ a ∉ bucketAuto h stops ∧ a ∉ bucketLast h stops) ∧
    (∀ r, (optimize_routeH solver oracle cfg stops s e h).1 = some r →
      ∀ x ∈ r.stops,
        (hget ((optimize_routeH solver oracle cfg stops s e h).2.1) x).order_preference ≠
          some p) ∧
    (∀ r, (optimize_route_with_clusteringH solver oracle d labels cfg stops s e h).1 = some r →
      ∀ x ∈ r.stops,
        (hget ((optimize_route_with_clusteringH solver oracle d labels cfg
          stops s e h).2.1) x).order_preference ≠ some p) := by
  have hclass : ∀ (st : Stop), (isFirstStop st ∨ isAutoStop st ∨ isLastStop st) →
      st.order_preference ≠ some p := by
    intro st hcl hcon
    rcases hcl with hc | hc | hc
    · rw [isFirstStop, hcon] at hc
      exact hp1 (Option.some_inj.mp hc)
    · rw [isAutoStop, hcon] at hc
      simp only [Option.getD_some] at hc
      exact hp2 hc
    · rw [isLastStop, hcon] at hc
      exact hp3 (Option.some_inj.mp hc)
  refine ⟨?_, ?_, ?_, ?_⟩
  · intro a ha hnone
    refine ⟨(mem_bucketAuto h stops a).mpr ⟨ha, by rw [isAutoStop, hnone]; rfl⟩, ?_, ?_⟩
    · intro hmem
      have := ((mem_bucketFirst h stops a).mp hmem).2
      rw [isFirstStop, hnone] at this
      simp at this
    · intro hmem
      have := ((mem_bucketLast h stops a).mp hmem).2
      rw [isLastStop, hnone] at this
      simp at this
  · intro a ha hsome
    refine ⟨?_, ?_, ?_⟩
    · intro hmem
      have := ((mem_bucketFirst h stops a).mp hmem).2
      rw [isFirstStop, hsome] at this
      exact hp1 (Option.some_inj.mp this)
    · intro hmem
      have := ((mem_bucketAuto h stops a).mp hmem).2
      rw [isAutoStop, hsome] at this
      simp only [Option.getD_some] at this
      exact hp2 this
    · intro hmem
      have := ((mem_bucketLast h stops a).mp hmem).2
      rw [isLastStop, hsome] at this
      exact hp3 (Option.some_inj.mp this)
  · intro r hr x hx
    have hprops := ResultShape_props h ((optimize_routeH solver oracle cfg stops s e h).2.1)
      (bucketFirst h stops) (bucketAuto h stops) (bucketLast h stops) r
      (optimize_routeH_shape solver oracle cfg stops s e h hv r hr)
      (bucketFirst_class h stops) (bucketAuto_class h stops) (bucketLast_class h stops)
    exact hclass _ (hprops.2.2 x hx)
  · intro r hr x hx
    have hprops := ResultShape_props h
      ((optimize_route_with_clusteringH solver oracle d labels cfg stops s e h).2.1)
      (bucketFirst h stops) (bucketAuto h stops) (bucketLast h stops) r
      (optimize_route_with_clusteringH_shape solver oracle d labels cfg stops s e h hv r hr)
      (bucketFirst_class h stops) (bucketAuto_class h stops) (bucketLast_class h stops)
    exact hclass _ (hprops.2.2 x hx)

theorem C10_unknown_preference_dropped_witness :
    ((1 : Nat) ∈ bucketAuto heapW [0, 1] ∧ (1 : Nat) ∉ bucketFirst heapW [0, 1] ∧
      (1 : Nat) ∉ bucketLast heapW [0, 1]) ∧
    (hget ((optimize_routeH solverW oracleW { } [0, 1]
      (some (0, 0)) (some (50, 60)) heapW).2.1) 2).order_preference ≠ some "weird" := by
  constructor
  · exact (C10_unknown_preference_dropped solverW oracleW dW labelsW { } [0, 1]
      (some (0, 0)) (some (50, 60)) heapW (by decide) "weird" (by decide) (by decide)
      (by decide)).1 1 (by decide) (by decide)
  · exact (C10_unknown_preference_dropped solverW oracleW dW labelsW { } [0, 1]
      (some (0, 0)) (some (50, 60)) heapW (by decide) "weird" (by decide) (by decide)
      (by decide)).2.2.1 ⟨[2], 18, 18, none⟩ (by decide) 2 (by decide)

end DriverPro
